import Mathlib

/-!
Verification of the portfolio accounting and allocation engine against its
implementation.  The frontend sources (AllocationPage, TransactionsPage,
HoldingsPage, DashboardPage, utils/format.ts) are embedded as pure Lean
functions; backend endpoints that are not part of the source tree are
modelled from the specification and marked as such in their doc comments.
Machine floating-point numbers are modelled by exact rationals.
-/

set_option maxHeartbeats 1000000
set_option maxRecDepth 8000

/-! ## Allocation tree data model (AllocationPage) -/

/-- An allocation node as used by the allocation tree UI: `id`,
nullable `parent_id` (null ⇒ root) and a `target_weight`. -/
structure AllocNode where
  id : ℕ
  parent_id : Option ℕ
  target_weight : ℚ
deriving DecidableEq, Repr

/-- `format.ts` `isHundred`: `Math.abs(value - 100) <= tolerance`. -/
def isHundred (value : ℚ) (tolerance : ℚ) : Bool :=
  decide (|value - 100| ≤ tolerance)

/-- The default tolerance argument of `isHundred` in `format.ts` (0.0001). -/
def WEIGHT_TOL : ℚ := 1 / 10000

/-- `format.ts` `sumDecimals`: reduce with `acc + (value ?? 0)`; the inputs we
embed are always numbers, so this is a plain sum. -/
def sumDecimals (values : List ℚ) : ℚ :=
  values.foldl (fun acc v => acc + v) 0

/-- `AllocationPage` `getSiblingNodes`: the nodes whose `parent_id` equals the
given parent (the source additionally sorts them by display name, which does
not affect which weights get saved). -/
def getSiblingNodes (nodes : List AllocNode) (parentId : Option ℕ) : List AllocNode :=
  nodes.filter (fun n => n.parent_id == parentId)

/-- The proposed weight for one sibling in `saveNodeSiblingWeights`:
`nodeWeightDrafts[item.id] ?? Number(item.target_weight)`. -/
def proposedWeight (drafts : ℕ → Option ℚ) (n : AllocNode) : ℚ :=
  (drafts n.id).getD n.target_weight

/-- Modelled from the spec: the backend batch weight-update endpoint
(`PATCH /allocation/nodes/weights/batch`) is not under `src/`; per the spec it
applies all proposed weights of the batch atomically.  Each node whose id
occurs in the payload gets its payload weight; every other node is untouched. -/
def applyWeights (nodes : List AllocNode) (payload : List (ℕ × ℚ)) : List AllocNode :=
  nodes.map (fun n =>
    match payload.lookup n.id with
    | some w => { n with target_weight := w }
    | none => n)

/-- The payload `saveNodeSiblingWeights` builds for the batch endpoint:
`siblings.map(item => ({id: item.id, target_weight: drafts[item.id] ?? item.target_weight}))`. -/
def weightsPayload (nodes : List AllocNode) (drafts : ℕ → Option ℚ)
    (parentId : Option ℕ) : List (ℕ × ℚ) :=
  (getSiblingNodes nodes parentId).map (fun n => (n.id, proposedWeight drafts n))

/-- `AllocationPage` `saveNodeSiblingWeights`, as a state transformer on the
node list: gather the siblings of `parentId`, build the payload of proposed
weights, reject the whole batch unless `isHundred` holds of the payload sum,
otherwise send the batch (modelled by `applyWeights`). -/
def saveNodeSiblingWeights (nodes : List AllocNode) (drafts : ℕ → Option ℚ)
    (parentId : Option ℕ) : List AllocNode :=
  if (getSiblingNodes nodes parentId).isEmpty then nodes
  else if isHundred
      (sumDecimals ((weightsPayload nodes drafts parentId).map (fun p => p.2)))
      WEIGHT_TOL then
    applyWeights nodes (weightsPayload nodes drafts parentId)
  else nodes

/-! ### Helper lemmas about id-keyed lists -/

theorem allocNode_eq_of_id_eq {nodes : List AllocNode}
    (hnodup : (nodes.map AllocNode.id).Nodup) {m n : AllocNode}
    (hm : m ∈ nodes) (hn : n ∈ nodes) (h : m.id = n.id) : m = n := by
  have := List.inj_on_of_nodup_map hnodup
  exact this hm hn h

theorem lookup_payload_eq (l : List AllocNode) (f : AllocNode → ℚ) (k : ℕ) :
    (l.map (fun n => (n.id, f n))).lookup k
      = (l.find? (fun n => n.id == k)).map f := by
  induction l with
  | nil => rfl
  | cons a l ih =>
    simp only [List.map_cons, List.lookup, List.find?]
    by_cases h : a.id = k
    · have hb : (k == a.id) = true := by simp [h]
      have hb2 : (a.id == k) = true := by simp [h]
      simp [hb, hb2]
    · have hb : (k == a.id) = false := by simp [Ne.symm h]
      have hb2 : (a.id == k) = false := by simp [h]
      simp [hb, hb2, ih]

theorem find_self_of_nodup {l : List AllocNode}
    (hnodup : (l.map AllocNode.id).Nodup) {n : AllocNode} (hn : n ∈ l) :
    l.find? (fun m => m.id == n.id) = some n := by
  induction l with
  | nil => cases hn
  | cons a l ih =>
    simp only [List.map_cons, List.nodup_cons] at hnodup
    rcases List.mem_cons.mp hn with rfl | htail
    · simp [List.find?]
    · have hne : a.id ≠ n.id := by
        intro h
        exact hnodup.1 (h ▸ (List.mem_map.mpr ⟨n, htail, rfl⟩))
      simp only [List.find?]
      have hb : (a.id == n.id) = false := by simp [hne]
      simp [hb, ih hnodup.2 htail]

theorem find_none_of_not_mem {l : List AllocNode} {k : ℕ}
    (h : ∀ m ∈ l, m.id ≠ k) : l.find? (fun m => m.id == k) = none := by
  rw [List.find?_eq_none]
  intro m hm
  simp [h m hm]

theorem getSiblingNodes_sublist (nodes : List AllocNode) (parentId : Option ℕ) :
    List.Sublist (getSiblingNodes nodes parentId) nodes :=
  List.filter_sublist nodes

/-- C1 helper: on a duplicate-free node list, the batch application rewrites
exactly the siblings of `parentId` to their proposed weights. -/
theorem applyWeights_payload_eq (nodes : List AllocNode) (drafts : ℕ → Option ℚ)
    (parentId : Option ℕ) (hnodup : (nodes.map AllocNode.id).Nodup) :
    applyWeights nodes (weightsPayload nodes drafts parentId)
      = nodes.map (fun n =>
          if n.parent_id = parentId then
            { n with target_weight := proposedWeight drafts n }
          else n) := by
  unfold applyWeights weightsPayload
  apply List.map_congr_left
  intro n hn
  rw [lookup_payload_eq]
  by_cases hp : n.parent_id = parentId
  · have hmem : n ∈ getSiblingNodes nodes parentId := by
      unfold getSiblingNodes
      refine List.mem_filter.mpr ⟨hn, ?_⟩
      simp [hp]
    have hsub : ((getSiblingNodes nodes parentId).map AllocNode.id).Nodup :=
      List.Nodup.sublist ((getSiblingNodes_sublist nodes parentId).map AllocNode.id) hnodup
    rw [find_self_of_nodup hsub hmem]
    simp [hp]
  · have hnone : (getSiblingNodes nodes parentId).find? (fun m => m.id == n.id) = none := by
      apply find_none_of_not_mem
      intro m hm hmn
      have hmnodes : m ∈ nodes := List.mem_of_mem_filter hm
      have : m = n := allocNode_eq_of_id_eq hnodup hmnodes hn hmn
      subst this
      have := (List.mem_filter.mp hm).2
      simp [hp] at this
    rw [hnone]
    simp [hp]

/-- C1 helper: the payload second components are exactly the proposed sibling
weights. -/
theorem payload_snd (nodes : List AllocNode) (drafts : ℕ → Option ℚ)
    (parentId : Option ℕ) :
    (weightsPayload nodes drafts parentId).map (fun p => p.2)
      = (getSiblingNodes nodes parentId).map (proposedWeight drafts) := by
  unfold weightsPayload
  rw [List.map_map]
  rfl

/-- C1: a sibling weight batch whose proposed total deviates from 100 by more
than the 0.0001 tolerance is rejected in its entirety (the node list is
unchanged) — in particular totals of 99 or 101 are rejected — and a batch
within tolerance applies exactly the proposed weights to the siblings while
leaving every other node untouched. -/
theorem c1_sibling_weight_batch (nodes : List AllocNode) (drafts : ℕ → Option ℚ)
    (parentId : Option ℕ) (hnodup : (nodes.map AllocNode.id).Nodup) :
    (¬ |sumDecimals ((getSiblingNodes nodes parentId).map (proposedWeight drafts)) - 100|
        ≤ WEIGHT_TOL →
      saveNodeSiblingWeights nodes drafts parentId = nodes)
    ∧ (sumDecimals ((getSiblingNodes nodes parentId).map (proposedWeight drafts)) = 99
        ∨ sumDecimals ((getSiblingNodes nodes parentId).map (proposedWeight drafts)) = 101 →
      saveNodeSiblingWeights nodes drafts parentId = nodes)
    ∧ (|sumDecimals ((getSiblingNodes nodes parentId).map (proposedWeight drafts)) - 100|
        ≤ WEIGHT_TOL →
      saveNodeSiblingWeights nodes drafts parentId
        = nodes.map (fun n =>
            if n.parent_id = parentId then
              { n with target_weight := proposedWeight drafts n }
            else n)) := by
  refine ⟨?_, ?_, ?_⟩
  · intro hbad
    unfold saveNodeSiblingWeights
    by_cases hemp : (getSiblingNodes nodes parentId).isEmpty
    · simp [hemp]
    · have hh : isHundred
          (sumDecimals ((weightsPayload nodes drafts parentId).map (fun p => p.2)))
          WEIGHT_TOL = false := by
        rw [payload_snd]
        unfold isHundred
        simpa using hbad
      simp [hemp, hh]
  · intro h99
    unfold saveNodeSiblingWeights
    by_cases hemp : (getSiblingNodes nodes parentId).isEmpty
    · simp [hemp]
    · have hbad : ¬ |sumDecimals ((getSiblingNodes nodes parentId).map
          (proposedWeight drafts)) - 100| ≤ WEIGHT_TOL := by
        rcases h99 with h | h <;> rw [h] <;> norm_num [WEIGHT_TOL]
      have hh : isHundred
          (sumDecimals ((weightsPayload nodes drafts parentId).map (fun p => p.2)))
          WEIGHT_TOL = false := by
        rw [payload_snd]
        unfold isHundred
        simpa using hbad
      simp [hemp, hh]
  · intro hgood
    unfold saveNodeSiblingWeights
    by_cases hemp : (getSiblingNodes nodes parentId).isEmpty
    · have hnil : getSiblingNodes nodes parentId = [] := List.isEmpty_iff.mp hemp
      have hnosib : ∀ n ∈ nodes, ¬ n.parent_id = parentId := by
        intro n hn hp
        have hmem : n ∈ getSiblingNodes nodes parentId := by
          unfold getSiblingNodes
          exact List.mem_filter.mpr ⟨hn, by simp [hp]⟩
        rw [hnil] at hmem
        cases hmem
      have hmapid : nodes.map (fun n =>
          if n.parent_id = parentId then
            { n with target_weight := proposedWeight drafts n }
          else n) = nodes := by
        conv_rhs => rw [← List.map_id nodes]
        apply List.map_congr_left
        intro n hn
        simp [hnosib n hn]
      simp [hemp, hmapid]
    · have hh : isHundred
          (sumDecimals ((weightsPayload nodes drafts parentId).map (fun p => p.2)))
          WEIGHT_TOL = true := by
        rw [payload_snd]
        unfold isHundred
        simpa using hgood
      simp only [hemp, Bool.false_eq_true, if_false, hh, if_true]
      exact applyWeights_payload_eq nodes drafts parentId hnodup

/-- C1 witness: a concrete two-node sibling set.  A draft total of 99 is
rejected (no node mutated); the original drafts totalling 100 are applied. -/
theorem c1_sibling_weight_batch_witness :
    (([⟨1, none, 60⟩, ⟨2, none, 40⟩] : List AllocNode).map AllocNode.id).Nodup
    ∧ ((¬ |sumDecimals ((getSiblingNodes [⟨1, none, 60⟩, ⟨2, none, 40⟩] none).map
          (proposedWeight (fun j => if j = 1 then some 59 else none))) - 100|
        ≤ WEIGHT_TOL →
      saveNodeSiblingWeights [⟨1, none, 60⟩, ⟨2, none, 40⟩]
          (fun j => if j = 1 then some 59 else none) none
        = [⟨1, none, 60⟩, ⟨2, none, 40⟩])
    ∧ (sumDecimals ((getSiblingNodes [⟨1, none, 60⟩, ⟨2, none, 40⟩] none).map
          (proposedWeight (fun j => if j = 1 then some 59 else none))) = 99
        ∨ sumDecimals ((getSiblingNodes [⟨1, none, 60⟩, ⟨2, none, 40⟩] none).map
          (proposedWeight (fun j => if j = 1 then some 59 else none))) = 101 →
      saveNodeSiblingWeights [⟨1, none, 60⟩, ⟨2, none, 40⟩]
          (fun j => if j = 1 then some 59 else none) none
        = [⟨1, none, 60⟩, ⟨2, none, 40⟩])
    ∧ (|sumDecimals ((getSiblingNodes [⟨1, none, 60⟩, ⟨2, none, 40⟩] none).map
          (proposedWeight (fun j => if j = 1 then some 59 else none))) - 100|
        ≤ WEIGHT_TOL →
      saveNodeSiblingWeights [⟨1, none, 60⟩, ⟨2, none, 40⟩]
          (fun j => if j = 1 then some 59 else none) none
        = ([⟨1, none, 60⟩, ⟨2, none, 40⟩] : List AllocNode).map (fun n =>
            if n.parent_id = none then
              { n with target_weight :=
                  proposedWeight (fun j => if j = 1 then some 59 else none) n }
            else n))) :=
  ⟨by decide,
   c1_sibling_weight_batch [⟨1, none, 60⟩, ⟨2, none, 40⟩]
     (fun j => if j = 1 then some 59 else none) none (by decide)⟩

/-! ## Generic helpers for id-keyed lists -/

theorem key_inj_of_nodup {α : Type} {key : α → ℕ} {l : List α}
    (hnodup : (l.map key).Nodup) {m n : α}
    (hm : m ∈ l) (hn : n ∈ l) (h : key m = key n) : m = n :=
  List.inj_on_of_nodup_map hnodup hm hn h

theorem find_key_self_of_nodup {α : Type} {key : α → ℕ} {l : List α}
    (hnodup : (l.map key).Nodup) {n : α} (hn : n ∈ l) :
    l.find? (fun m => key m == key n) = some n := by
  induction l with
  | nil => cases hn
  | cons a l ih =>
    simp only [List.map_cons, List.nodup_cons] at hnodup
    rcases List.mem_cons.mp hn with rfl | htail
    · simp [List.find?]
    · have hne : key a ≠ key n := by
        intro h
        exact hnodup.1 (h ▸ (List.mem_map.mpr ⟨n, htail, rfl⟩))
      simp only [List.find?]
      have hb : (key a == key n) = false := by simp [hne]
      simp [hb, ih hnodup.2 htail]

theorem filter_key_eq_single {α : Type} {key : α → ℕ} {l : List α}
    (hnodup : (l.map key).Nodup) {n : α} (hn : n ∈ l) :
    l.filter (fun m => key m == key n) = [n] := by
  induction l with
  | nil => cases hn
  | cons a l ih =>
    simp only [List.map_cons, List.nodup_cons] at hnodup
    rcases List.mem_cons.mp hn with rfl | htail
    · have htail_nil : l.filter (fun m => key m == key n) = [] := by
        apply List.filter_eq_nil_iff.mpr
        intro m hm
        have hne : key m ≠ key n := by
          intro h
          exact hnodup.1 (h ▸ (List.mem_map.mpr ⟨m, hm, rfl⟩))
        simp [hne]
      simp [List.filter, htail_nil]
    · have hne : key a ≠ key n := by
        intro h
        exact hnodup.1 (h ▸ (List.mem_map.mpr ⟨n, htail, rfl⟩))
      have hb : (key a == key n) = false := by simp [hne]
      simp [List.filter, hb, ih hnodup.2 htail]

/-! ## Transaction ledger data model (TransactionsPage) -/

/-- The transaction types of the ledger. -/
inductive TxType where
  | BUY | SELL | DIVIDEND | FEE | CASH_IN | CASH_OUT | INTERNAL_TRANSFER
deriving DecidableEq, Repr

/-- A ledger transaction (the fields the claims are about; display-only
fields such as currency, executed_at and note are omitted).
`transfer_group_id` is a nullable string in the source. -/
structure Transaction where
  id : ℕ
  type : TxType
  account_id : ℕ
  counterparty_account_id : Option ℕ
  instrument_id : Option ℕ
  quantity : Option ℚ
  price : Option ℚ
  amount : ℚ
  fee : ℚ
  tax : ℚ
  transfer_group_id : Option (List Char)
deriving DecidableEq, Repr

/-- `TRADE_TYPES = new Set(["BUY", "SELL"])`. -/
def isTradeType (t : TxType) : Bool :=
  decide (t = TxType.BUY ∨ t = TxType.SELL)

/-- `INSTRUMENT_REQUIRED_TYPES = new Set(["BUY", "SELL", "DIVIDEND"])`. -/
def instrumentRequired (t : TxType) : Bool :=
  decide (t = TxType.BUY ∨ t = TxType.SELL ∨ t = TxType.DIVIDEND)

/-- `TransactionsPage` `round8`: `Number(value.toFixed(8))`, rounding to 8
decimal places (ties away from zero for the positive values used here). -/
def round8 (value : ℚ) : ℚ :=
  (⌊value * 100000000 + 1 / 2⌋ : ℚ) / 100000000

/-- `TransactionsPage` `onCreate`, embedded as the pure validation path that
either rejects the submitted form (`none`) or yields the transaction payload
posted to the backend.  Instrument resolution (the Yahoo lookup) is abstracted
by the already-resolved `instrument_id`. -/
def onCreate (type : TxType) (account_id : ℕ) (instrument_id : Option ℕ)
    (counterparty_account_id : Option ℕ)
    (quantity price amount fee tax : Option ℚ) : Option Transaction :=
  if instrumentRequired type = true ∧ instrument_id = none then none
  else if type = TxType.INTERNAL_TRANSFER ∧ counterparty_account_id = none then none
  else if isTradeType type = true ∧ (quantity.getD 0 ≤ 0 ∨ price.getD 0 ≤ 0) then none
  else if (if isTradeType type = true then round8 (quantity.getD 0 * price.getD 0)
      else amount.getD 0) ≤ 0 then none
  else some
    { id := 0
      type := type
      account_id := account_id
      counterparty_account_id :=
        if type = TxType.INTERNAL_TRANSFER then counterparty_account_id else none
      instrument_id := instrument_id
      quantity := if isTradeType type = true then some (quantity.getD 0) else none
      price := if isTradeType type = true then some (price.getD 0) else none
      amount := if isTradeType type = true then round8 (quantity.getD 0 * price.getD 0)
        else amount.getD 0
      fee := if isTradeType type = true then fee.getD 0 else 0
      tax := if isTradeType type = true then tax.getD 0 else 0
      transfer_group_id := none }

/-- C3: every committed BUY or SELL has `amount = round8 (quantity * price)`
and `amount > 0`; a trade with non-positive quantity or price is rejected at
creation. -/
theorem c3_trade_amount (type : TxType) (account_id : ℕ)
    (instrument_id counterparty_account_id : Option ℕ)
    (quantity price amount fee tax : Option ℚ)
    (htrade : type = TxType.BUY ∨ type = TxType.SELL) :
    (∀ tx : Transaction,
      onCreate type account_id instrument_id counterparty_account_id
          quantity price amount fee tax = some tx →
      tx.amount = round8 ((quantity.getD 0) * (price.getD 0)) ∧ 0 < tx.amount)
    ∧ ((quantity.getD 0) ≤ 0 ∨ (price.getD 0) ≤ 0 →
      onCreate type account_id instrument_id counterparty_account_id
          quantity price amount fee tax = none) := by
  have htt : isTradeType type = true := by
    unfold isTradeType
    rcases htrade with h | h <;> simp [h]
  have hnt : type ≠ TxType.INTERNAL_TRANSFER := by
    rcases htrade with h | h <;> simp [h]
  have hnt2 : ¬ (type = TxType.INTERNAL_TRANSFER ∧ counterparty_account_id = none) :=
    fun h => hnt h.1
  constructor
  · intro tx htx
    unfold onCreate at htx
    by_cases h1 : instrumentRequired type = true ∧ instrument_id = none
    · rw [if_pos h1] at htx
      exact Option.noConfusion htx
    · rw [if_neg h1, if_neg hnt2] at htx
      by_cases h3 : (quantity.getD 0 : ℚ) ≤ 0 ∨ (price.getD 0 : ℚ) ≤ 0
      · rw [if_pos ⟨htt, h3⟩] at htx
        exact Option.noConfusion htx
      · rw [if_neg (fun h => h3 h.2), if_pos htt] at htx
        by_cases h4 : round8 ((quantity.getD 0) * (price.getD 0)) ≤ 0
        · rw [if_pos h4] at htx
          exact Option.noConfusion htx
        · rw [if_neg h4] at htx
          cases Option.some.inj htx
          exact ⟨rfl, lt_of_not_le h4⟩
  · intro hbad
    unfold onCreate
    by_cases h1 : instrumentRequired type = true ∧ instrument_id = none
    · rw [if_pos h1]
    · rw [if_neg h1, if_neg hnt2, if_pos ⟨htt, hbad⟩]

/-- C3 witness: a BUY of 10 units at 100 commits with amount 1000 and a
positive amount. -/
theorem c3_trade_amount_witness :
    ((TxType.BUY = TxType.BUY ∨ TxType.BUY = TxType.SELL)
    ∧ ((∀ tx : Transaction,
        onCreate TxType.BUY 1 (some 1) none (some 10) (some 100) none (some 1) (some 0)
          = some tx →
        tx.amount = round8 (((some (10 : ℚ)).getD 0) * ((some (100 : ℚ)).getD 0))
          ∧ 0 < tx.amount)
      ∧ (((some (10 : ℚ)).getD 0) ≤ 0 ∨ ((some (100 : ℚ)).getD 0) ≤ 0 →
        onCreate TxType.BUY 1 (some 1) none (some 10) (some 100) none (some 1) (some 0)
          = none))) :=
  ⟨Or.inl rfl,
   c3_trade_amount TxType.BUY 1 (some 1) none (some 10) (some 100) none (some 1) (some 0)
     (Or.inl rfl)⟩

/-! ## C5: transfer legs are immutable in the transactions table -/

/-- `TransactionsPage` actions column: `const isTransferRow = Boolean(tx.transfer_group_id)`
(JS truthiness: `null` and the empty string are falsy). -/
def isTransferRow (tx : Transaction) : Bool :=
  match tx.transfer_group_id with
  | none => false
  | some g => !g.isEmpty

/-- The row actions offered by the `TransactionsPage` actions column. -/
structure RowActions where
  editEnabled : Bool
  reverseEnabled : Bool
  deleteEnabled : Bool
deriving DecidableEq, Repr

/-- `TransactionsPage` actions column: the edit button and the reverse
confirmation are rendered with `disabled={isTransferRow}`, while the delete
confirmation is always offered. -/
def transactionRowActions (tx : Transaction) : RowActions :=
  { editEnabled := !(isTransferRow tx)
    reverseEnabled := !(isTransferRow tx)
    deleteEnabled := true }

/-- C5: for a transaction that is part of a transfer pair (a non-empty
`transfer_group_id`), both update and reverse are unavailable while delete
stays offered (delete plus recreate is the only correction path); for a
transaction with no transfer group, update and reverse are both offered. -/
theorem c5_transfer_row_actions (tx : Transaction) :
    (∀ g : List Char, tx.transfer_group_id = some g → g ≠ [] →
      (transactionRowActions tx).editEnabled = false
      ∧ (transactionRowActions tx).reverseEnabled = false
      ∧ (transactionRowActions tx).deleteEnabled = true)
    ∧ (tx.transfer_group_id = none →
      (transactionRowActions tx).editEnabled = true
      ∧ (transactionRowActions tx).reverseEnabled = true
      ∧ (transactionRowActions tx).deleteEnabled = true) := by
  constructor
  · intro g hg hne
    have hrow : isTransferRow tx = true := by
      unfold isTransferRow
      rw [hg]
      simpa using hne
    unfold transactionRowActions
    simp [hrow]
  · intro hg
    have hrow : isTransferRow tx = false := by
      unfold isTransferRow
      rw [hg]
    unfold transactionRowActions
    simp [hrow]

/-- C5 witness: a concrete transfer leg has edit and reverse disabled. -/
theorem c5_transfer_row_actions_witness :
    ((⟨7, TxType.INTERNAL_TRANSFER, 1, some 2, none, none, none, 5000, 0, 0,
        some ['g', '1']⟩ : Transaction).transfer_group_id = some ['g', '1'])
    ∧ (['g', '1'] ≠ ([] : List Char))
    ∧ (transactionRowActions
        ⟨7, TxType.INTERNAL_TRANSFER, 1, some 2, none, none, none, 5000, 0, 0,
          some ['g', '1']⟩).editEnabled = false
    ∧ (transactionRowActions
        ⟨7, TxType.INTERNAL_TRANSFER, 1, some 2, none, none, none, 5000, 0, 0,
          some ['g', '1']⟩).reverseEnabled = false
    ∧ (transactionRowActions
        ⟨7, TxType.INTERNAL_TRANSFER, 1, some 2, none, none, none, 5000, 0, 0,
          some ['g', '1']⟩).deleteEnabled = true := by
  refine ⟨rfl, by decide, ?_⟩
  have h := (c5_transfer_row_actions
    ⟨7, TxType.INTERNAL_TRANSFER, 1, some 2, none, none, none, 5000, 0, 0,
      some ['g', '1']⟩).1 ['g', '1'] rfl (by decide)
  exact ⟨h.1, h.2.1, h.2.2⟩

/-! ## C4: deleting a transaction (transfer pairs go together) -/

/-- Modelled from the spec: the backend `DELETE /transactions/{id}` handler is
not under `src/` (the page only invokes it and reports `deleted_count`).  Per
the spec, deleting a transaction that belongs to a transfer group removes both
legs atomically and reports the count deleted, otherwise it removes the single
row; other rows are never rewritten. -/
def deleteTransaction (ledger : List Transaction) (txId : ℕ) :
    List Transaction × ℕ :=
  match ledger.find? (fun t => t.id == txId) with
  | none => (ledger, 0)
  | some tx =>
    match tx.transfer_group_id with
    | none =>
      let remaining := ledger.filter (fun t => !(t.id == txId))
      (remaining, ledger.length - remaining.length)
    | some g =>
      let remaining := ledger.filter (fun t => !(t.transfer_group_id == some g))
      (remaining, ledger.length - remaining.length)

theorem length_filter_not_eq_sub {α : Type} (l : List α) (p : α → Bool) :
    l.length - (l.filter (fun a => !(p a))).length = (l.filter p).length := by
  induction l with
  | nil => rfl
  | cons a l ih =>
    have hle : (l.filter (fun a => !(p a))).length ≤ l.length :=
      List.length_filter_le _ l
    by_cases h : p a = true
    · simp only [List.filter_cons, h, Bool.not_true, if_true, Bool.false_eq_true,
        if_false, List.length_cons]
      omega
    · have hp : p a = false := by simpa using h
      simp only [List.filter_cons, hp, Bool.not_false, if_true, Bool.false_eq_true,
        if_false, List.length_cons]
      omega

/-- C4: deleting a leg of a transfer pair removes both legs (`deleted_count`
is 2, nothing of the group survives) and leaves every other row in place
unchanged; deleting a transaction outside any transfer group removes exactly
that row (`deleted_count` is 1) and keeps all other rows unchanged. -/
theorem c4_delete_semantics (ledger : List Transaction) (tx : Transaction)
    (hnodup : (ledger.map Transaction.id).Nodup) (hmem : tx ∈ ledger) :
    (∀ g : List Char, tx.transfer_group_id = some g →
      (ledger.filter (fun t => t.transfer_group_id == some g)).length = 2 →
      (deleteTransaction ledger tx.id).2 = 2
      ∧ (deleteTransaction ledger tx.id).1
          = ledger.filter (fun t => !(t.transfer_group_id == some g)))
    ∧ (tx.transfer_group_id = none →
      (deleteTransaction ledger tx.id).2 = 1
      ∧ (deleteTransaction ledger tx.id).1
          = ledger.filter (fun t => !(t.id == tx.id))) := by
  have hfind : ledger.find? (fun t => t.id == tx.id) = some tx :=
    @find_key_self_of_nodup Transaction Transaction.id ledger hnodup tx hmem
  have hred : ∀ found : Option Transaction, found = some tx →
      deleteTransaction ledger tx.id
        = (match tx.transfer_group_id with
          | none =>
            (ledger.filter (fun t => !(t.id == tx.id)),
             ledger.length - (ledger.filter (fun t => !(t.id == tx.id))).length)
          | some g =>
            (ledger.filter (fun t => !(t.transfer_group_id == some g)),
             ledger.length
               - (ledger.filter (fun t => !(t.transfer_group_id == some g))).length)) := by
    intro found hfound
    unfold deleteTransaction
    rw [hfind]
  constructor
  · intro g hg hpair
    rw [hred (some tx) rfl, hg]
    refine ⟨?_, rfl⟩
    show ledger.length
        - (ledger.filter (fun t => !(t.transfer_group_id == some g))).length = 2
    rw [length_filter_not_eq_sub ledger (fun t => t.transfer_group_id == some g), hpair]
  · intro hg
    rw [hred (some tx) rfl, hg]
    refine ⟨?_, rfl⟩
    show ledger.length - (ledger.filter (fun t => !(t.id == tx.id))).length = 1
    rw [length_filter_not_eq_sub ledger (fun t => t.id == tx.id)]
    rw [@filter_key_eq_single Transaction Transaction.id ledger hnodup tx hmem]
    rfl

/-- C4 witness: a two-leg transfer pair plus one cash row; deleting leg 1
removes both legs with `deleted_count = 2` and keeps the cash row; deleting
the cash row alone reports `deleted_count = 1`. -/
theorem c4_delete_semantics_witness :
    ((([⟨1, TxType.INTERNAL_TRANSFER, 1, some 2, none, none, none, 5000, 0, 0, some ['g']⟩,
        ⟨2, TxType.INTERNAL_TRANSFER, 2, some 1, none, none, none, 5000, 0, 0, some ['g']⟩,
        ⟨3, TxType.CASH_IN, 1, none, none, none, none, 100, 0, 0, none⟩] :
          List Transaction).map Transaction.id).Nodup)
    ∧ ((⟨1, TxType.INTERNAL_TRANSFER, 1, some 2, none, none, none, 5000, 0, 0, some ['g']⟩ :
        Transaction) ∈
        ([⟨1, TxType.INTERNAL_TRANSFER, 1, some 2, none, none, none, 5000, 0, 0, some ['g']⟩,
        ⟨2, TxType.INTERNAL_TRANSFER, 2, some 1, none, none, none, 5000, 0, 0, some ['g']⟩,
        ⟨3, TxType.CASH_IN, 1, none, none, none, none, 100, 0, 0, none⟩] : List Transaction))
    ∧ (deleteTransaction
        [⟨1, TxType.INTERNAL_TRANSFER, 1, some 2, none, none, none, 5000, 0, 0, some ['g']⟩,
        ⟨2, TxType.INTERNAL_TRANSFER, 2, some 1, none, none, none, 5000, 0, 0, some ['g']⟩,
        ⟨3, TxType.CASH_IN, 1, none, none, none, none, 100, 0, 0, none⟩] 1).2 = 2
    ∧ (deleteTransaction
        [⟨1, TxType.INTERNAL_TRANSFER, 1, some 2, none, none, none, 5000, 0, 0, some ['g']⟩,
        ⟨2, TxType.INTERNAL_TRANSFER, 2, some 1, none, none, none, 5000, 0, 0, some ['g']⟩,
        ⟨3, TxType.CASH_IN, 1, none, none, none, none, 100, 0, 0, none⟩] 1).1
        = [⟨3, TxType.CASH_IN, 1, none, none, none, none, 100, 0, 0, none⟩] := by
  refine ⟨by decide, by decide, ?_, by decide⟩
  have h := (c4_delete_semantics
    [⟨1, TxType.INTERNAL_TRANSFER, 1, some 2, none, none, none, 5000, 0, 0, some ['g']⟩,
     ⟨2, TxType.INTERNAL_TRANSFER, 2, some 1, none, none, none, 5000, 0, 0, some ['g']⟩,
     ⟨3, TxType.CASH_IN, 1, none, none, none, none, 100, 0, 0, none⟩]
    ⟨1, TxType.INTERNAL_TRANSFER, 1, some 2, none, none, none, 5000, 0, 0, some ['g']⟩
    (by decide) (by decide)).1 ['g'] rfl (by decide)
  exact h.1

/-! ## C6: only true leaves accept instrument bindings -/

/-- An instrument as used by the allocation binding UI: `id` and the single
nullable `allocation_node_id` binding field. -/
structure Instrument where
  id : ℕ
  allocation_node_id : Option ℕ
deriving DecidableEq, Repr

/-- `AllocationPage` `leafNodes`: collect every `parent_id` that occurs, then
keep the nodes whose id is not a parent of anything. -/
def leafNodes (nodes : List AllocNode) : List AllocNode :=
  let parentIds := nodes.filterMap (fun n => n.parent_id)
  nodes.filter (fun n => !(parentIds.contains n.id))

/-- `AllocationPage` `childrenMap.get(node.id)`: the children of a node. -/
def nodeChildren (nodes : List AllocNode) (nodeId : ℕ) : List AllocNode :=
  nodes.filter (fun n => n.parent_id == some nodeId)

/-- `AllocationPage` `selectedNodeHasChildren`. -/
def selectedNodeHasChildren (nodes : List AllocNode) (node : AllocNode) : Bool :=
  !(nodeChildren nodes node.id).isEmpty

/-- `AllocationPage` `bindInstrumentToNode`: rejected (with a warning, no API
call) unless a node is selected, it has no children, and a draft instrument is
chosen; otherwise `PATCH /instruments/{id}` sets that instrument's single
`allocation_node_id` field to the selected node (the PATCH semantics of the
backend CRUD endpoint — not under `src/` — is modelled from the spec: the one
binding field of the one instrument row is overwritten). -/
def bindInstrumentToNode (nodes : List AllocNode) (instruments : List Instrument)
    (selectedNode : Option AllocNode) (leafInstrumentDraftId : Option ℕ) :
    Option (List Instrument) :=
  match selectedNode, leafInstrumentDraftId with
  | some node, some iid =>
    if selectedNodeHasChildren nodes node = true then none
    else some (instruments.map (fun it =>
      if it.id = iid then { it with allocation_node_id := some node.id } else it))
  | _, _ => none

theorem selectedNodeHasChildren_iff (nodes : List AllocNode) (node : AllocNode) :
    selectedNodeHasChildren nodes node = true
      ↔ ∃ m ∈ nodes, m.parent_id = some node.id := by
  unfold selectedNodeHasChildren nodeChildren
  rw [Bool.not_eq_true', List.isEmpty_eq_false_iff_exists_mem]
  constructor
  · rintro ⟨m, hm⟩
    have := List.mem_filter.mp hm
    exact ⟨m, this.1, by simpa using this.2⟩
  · rintro ⟨m, hm, hp⟩
    exact ⟨m, List.mem_filter.mpr ⟨hm, by simp [hp]⟩⟩

theorem mem_leafNodes_iff (nodes : List AllocNode) (node : AllocNode)
    (hn : node ∈ nodes) :
    node ∈ leafNodes nodes ↔ ∀ m ∈ nodes, m.parent_id ≠ some node.id := by
  unfold leafNodes
  rw [List.mem_filter]
  constructor
  · rintro ⟨-, hb⟩ m hm hp
    rw [Bool.not_eq_true'] at hb
    have hmem : node.id ∈ nodes.filterMap (fun n => n.parent_id) :=
      List.mem_filterMap.mpr ⟨m, hm, by simp [hp]⟩
    have hcontains : (nodes.filterMap (fun n => n.parent_id)).contains node.id = true :=
      List.elem_iff.mpr hmem
    rw [hb] at hcontains
    exact Bool.noConfusion hcontains
  · intro h
    refine ⟨hn, ?_⟩
    rw [Bool.not_eq_true']
    apply Bool.eq_false_iff.mpr
    intro hc
    have hmem : node.id ∈ nodes.filterMap (fun n => n.parent_id) :=
      List.elem_iff.mp hc
    rcases List.mem_filterMap.mp hmem with ⟨m, hm, hp⟩
    exact h m hm (by simpa using hp)

/-- C6: on a tree with no self-parenting, a node is a leaf exactly when no
other node has it as parent; binding an instrument to a node with children is
rejected; binding to a true leaf succeeds and overwrites exactly the chosen
instrument's single `allocation_node_id` field, leaving every other instrument
unchanged (no second binding is created). -/
theorem c6_leaf_instrument_binding (nodes : List AllocNode)
    (instruments : List Instrument) (node : AllocNode) (iid : ℕ)
    (hn : node ∈ nodes) (hnoself : ∀ m ∈ nodes, m.parent_id ≠ some m.id) :
    (node ∈ leafNodes nodes ↔ ∀ m ∈ nodes, m ≠ node → m.parent_id ≠ some node.id)
    ∧ (node ∈ leafNodes nodes ↔ selectedNodeHasChildren nodes node = false)
    ∧ (selectedNodeHasChildren nodes node = true →
      bindInstrumentToNode nodes instruments (some node) (some iid) = none)
    ∧ (selectedNodeHasChildren nodes node = false →
      bindInstrumentToNode nodes instruments (some node) (some iid)
        = some (instruments.map (fun it =>
            if it.id = iid then { it with allocation_node_id := some node.id } else it))
      ∧ (instruments.map (fun it =>
            if it.id = iid then { it with allocation_node_id := some node.id } else it)).length
          = instruments.length) := by
  have hleaf := mem_leafNodes_iff nodes node hn
  refine ⟨?_, ?_, ?_, ?_⟩
  · rw [hleaf]
    constructor
    · intro h m hm _ hp
      exact h m hm hp
    · intro h m hm hp
      by_cases hmn : m = node
      · exact hnoself node hn (by rw [← hmn] at hp ⊢; exact hp)
      · exact h m hm hmn hp
  · rw [hleaf]
    constructor
    · intro h
      rw [Bool.eq_false_iff]
      intro hch
      rcases (selectedNodeHasChildren_iff nodes node).mp hch with ⟨m, hm, hp⟩
      exact h m hm hp
    · intro h m hm hp
      have : selectedNodeHasChildren nodes node = true :=
        (selectedNodeHasChildren_iff nodes node).mpr ⟨m, hm, hp⟩
      rw [h] at this
      exact Bool.noConfusion this
  · intro hch
    have hred : bindInstrumentToNode nodes instruments (some node) (some iid)
        = if selectedNodeHasChildren nodes node = true then none
          else some (instruments.map (fun it =>
            if it.id = iid then { it with allocation_node_id := some node.id } else it)) :=
      rfl
    rw [hred, if_pos hch]
  · intro hch
    have hred : bindInstrumentToNode nodes instruments (some node) (some iid)
        = if selectedNodeHasChildren nodes node = true then none
          else some (instruments.map (fun it =>
            if it.id = iid then { it with allocation_node_id := some node.id } else it)) :=
      rfl
    rw [hred, if_neg (by rw [hch]; exact Bool.noConfusion)]
    exact ⟨rfl, List.length_map _ _⟩

/-- C6 witness: in the two-node tree root(1) → child(2), binding to the root
is rejected and binding instrument 10 to leaf 2 overwrites its binding. -/
theorem c6_leaf_instrument_binding_witness :
    ((⟨2, some 1, 100⟩ : AllocNode) ∈ ([⟨1, none, 100⟩, ⟨2, some 1, 100⟩] : List AllocNode))
    ∧ (∀ m ∈ ([⟨1, none, 100⟩, ⟨2, some 1, 100⟩] : List AllocNode),
        m.parent_id ≠ some m.id)
    ∧ (selectedNodeHasChildren [⟨1, none, 100⟩, ⟨2, some 1, 100⟩] ⟨2, some 1, 100⟩ = false →
        bindInstrumentToNode [⟨1, none, 100⟩, ⟨2, some 1, 100⟩]
            [⟨10, none⟩, ⟨11, some 9⟩] (some ⟨2, some 1, 100⟩) (some 10)
          = some (([⟨10, none⟩, ⟨11, some 9⟩] : List Instrument).map (fun it =>
              if it.id = 10 then { it with allocation_node_id := some 2 } else it))
        ∧ (([⟨10, none⟩, ⟨11, some 9⟩] : List Instrument).map (fun it =>
              if it.id = 10 then { it with allocation_node_id := some 2 } else it)).length
            = ([⟨10, none⟩, ⟨11, some 9⟩] : List Instrument).length) :=
  ⟨by decide, by decide,
   (c6_leaf_instrument_binding [⟨1, none, 100⟩, ⟨2, some 1, 100⟩]
     [⟨10, none⟩, ⟨11, some 9⟩] ⟨2, some 1, 100⟩ 10 (by decide) (by decide)).2.2.2⟩

/-! ## C7: returns curve, null rate propagation -/

/-- One day of the returns curve as consumed by `DashboardPage` (`date` is an
abstract day index; the claims do not depend on its format). -/
structure ReturnCurvePoint where
  date : ℕ
  total_assets : ℚ
  net_contribution : ℚ
  total_return : ℚ
  total_return_rate : Option ℚ
deriving DecidableEq, Repr

/-- Modelled from the spec: the backend returns-curve endpoint is not under
`src/`.  Per the spec, for each day `total_return = total_assets −
net_contribution` and `total_return_rate = total_return / net_contribution`
when `net_contribution > 0`, else null. -/
def mkReturnCurvePoint (day : ℕ) (assets contribution : ℚ) : ReturnCurvePoint :=
  { date := day
    total_assets := assets
    net_contribution := contribution
    total_return := assets - contribution
    total_return_rate :=
      if 0 < contribution then some ((assets - contribution) / contribution) else none }

/-- `DashboardPage` `buildCurveOption`: each point is mapped to its
`total_return_rate` (null preserved) and the null entries are filtered out of
the plotted series — never replaced by 0. -/
def curveSeriesRates (points : List ReturnCurvePoint) : List ℚ :=
  points.filterMap (fun p => p.total_return_rate)

/-- `DashboardPage` `derived` (netContribution / totalReturn /
totalReturnRate): taken from the last curve point; a null rate stays null. -/
def derivedReturn (points : List ReturnCurvePoint) (totalAssets : ℚ) :
    ℚ × ℚ × Option ℚ :=
  match points.getLast? with
  | some lastPoint =>
    (lastPoint.net_contribution, lastPoint.total_return, lastPoint.total_return_rate)
  | none => (0, totalAssets - 0, none)

/-- C7: on every curve day, `total_return = total_assets − net_contribution`;
the rate is `total_return / net_contribution` exactly when the contribution is
positive and null otherwise; a null rate is excluded from the plotted series
(never rendered as 0) and propagates as null into the dashboard summary. -/
theorem c7_return_rate (day : ℕ) (assets contribution : ℚ) :
    (mkReturnCurvePoint day assets contribution).total_return = assets - contribution
    ∧ (0 < contribution →
      (mkReturnCurvePoint day assets contribution).total_return_rate
        = some ((assets - contribution) / contribution))
    ∧ (¬ 0 < contribution →
      (mkReturnCurvePoint day assets contribution).total_return_rate = none)
    ∧ (∀ pre post : List ReturnCurvePoint,
      (mkReturnCurvePoint day assets contribution).total_return_rate = none →
      curveSeriesRates (pre ++ mkReturnCurvePoint day assets contribution :: post)
        = curveSeriesRates pre ++ curveSeriesRates post)
    ∧ (∀ pre : List ReturnCurvePoint, ∀ ta : ℚ,
      derivedReturn (pre ++ [mkReturnCurvePoint day assets contribution]) ta
        = (contribution, assets - contribution,
           (mkReturnCurvePoint day assets contribution).total_return_rate)) := by
  refine ⟨rfl, ?_, ?_, ?_, ?_⟩
  · intro h
    unfold mkReturnCurvePoint
    rw [if_pos h]
  · intro h
    unfold mkReturnCurvePoint
    rw [if_neg h]
  · intro pre post hnone
    unfold curveSeriesRates
    rw [List.filterMap_append, List.filterMap_cons, hnone]
  · intro pre ta
    unfold derivedReturn
    rw [List.getLast?_concat]
    rfl

/-- C7 witness: with zero net contribution the rate is null and the series
drops the point instead of plotting 0%. -/
theorem c7_return_rate_witness :
    (¬ (0 : ℚ) < 0 →
      (mkReturnCurvePoint 1 500 0).total_return_rate = none)
    ∧ ((mkReturnCurvePoint 1 500 0).total_return_rate = none →
      curveSeriesRates ([] ++ mkReturnCurvePoint 1 500 0 :: [])
        = curveSeriesRates [] ++ curveSeriesRates []) :=
  ⟨(c7_return_rate 1 500 0).2.2.1,
   fun h => (c7_return_rate 1 500 0).2.2.2.1 [] [] h⟩

/-! ## C8: cash (settlement) effect of trades -/

/-- `TransactionsPage` `createSettlementPreview`: for a trade with a positive
principal amount, SELL settles `principal − fee − tax` and BUY settles
`principal + fee + tax` (the preview is null otherwise). -/
def createSettlementPreview (isCreateTradeType : Bool) (createType : TxType)
    (amountField createFee createTax : Option ℚ) : Option ℚ :=
  if isCreateTradeType = false then none
  else if (amountField.getD 0) ≤ 0 then none
  else some (if createType = TxType.SELL
    then amountField.getD 0 - createFee.getD 0 - createTax.getD 0
    else amountField.getD 0 + createFee.getD 0 + createTax.getD 0)

/-- Modelled from the spec (§4.2): the per-account cash effect of one ledger
row — CASH_IN/DIVIDEND/SELL-proceeds add, CASH_OUT/BUY-cost/FEE/TAX subtract,
with trade settlement `amount ∓ fee ∓ tax`.  The paired INTERNAL_TRANSFER
legs cancel between two accounts and are outside this claim; their per-leg
sign needs the counterparty context, so they contribute 0 here. -/
def cashDelta (tx : Transaction) : ℚ :=
  match tx.type with
  | TxType.CASH_IN => tx.amount
  | TxType.DIVIDEND => tx.amount
  | TxType.SELL => tx.amount - tx.fee - tx.tax
  | TxType.CASH_OUT => -tx.amount
  | TxType.BUY => -(tx.amount + tx.fee + tx.tax)
  | TxType.FEE => -tx.amount
  | TxType.INTERNAL_TRANSFER => 0

/-- Modelled from the spec (§4.2): cash balance is the running sum of the
per-row cash effects. -/
def cashBalance (txs : List Transaction) : ℚ :=
  txs.foldl (fun acc tx => acc + cashDelta tx) 0

/-- Modelled from the spec (§4.2): the holdings fold.  On BUY,
`new_avg_cost = (old_qty*old_avg_cost + qty*price) / (old_qty+qty)` and the
quantity grows; on SELL the quantity shrinks and the average cost is
unchanged; all other types leave the position alone. -/
def holdingFold (txs : List Transaction) : ℚ × ℚ :=
  txs.foldl (fun acc tx =>
    match tx.type with
    | TxType.BUY =>
      (acc.1 + tx.quantity.getD 0,
       (acc.1 * acc.2 + tx.quantity.getD 0 * tx.price.getD 0)
         / (acc.1 + tx.quantity.getD 0))
    | TxType.SELL => (acc.1 - tx.quantity.getD 0, acc.2)
    | _ => acc) (0, 0)

/-- The spec's worked example, first row: CASH_IN of 10,000 on account A. -/
def exampleCashIn : Transaction :=
  ⟨1, TxType.CASH_IN, 1, none, none, none, none, 10000, 0, 0, none⟩

/-- The spec's worked example, second row: BUY 10 units at 100 with fee 1. -/
def exampleBuy : Transaction :=
  ⟨2, TxType.BUY, 1, none, some 1, some 10, some 100, 1000, 1, 0, none⟩

/-- C8: a SELL settles `amount − fee − tax` into cash and a BUY settles
`−(amount + fee + tax)`, both in the settlement preview and in the cash fold;
the worked example CASH_IN 10,000 then BUY 10 @ 100 (fee 1) leaves a cash
balance of 8,999 and a holding of 10 units at average cost 100. -/
theorem c8_trade_cash_effect (amount fee tax : ℚ) (hpos : 0 < amount) :
    createSettlementPreview true TxType.SELL (some amount) (some fee) (some tax)
      = some (amount - fee - tax)
    ∧ createSettlementPreview true TxType.BUY (some amount) (some fee) (some tax)
      = some (amount + fee + tax)
    ∧ (∀ tx : Transaction, tx.type = TxType.SELL →
      cashDelta tx = tx.amount - tx.fee - tx.tax)
    ∧ (∀ tx : Transaction, tx.type = TxType.BUY →
      cashDelta tx = -(tx.amount + tx.fee + tx.tax))
    ∧ cashBalance [exampleCashIn, exampleBuy] = 8999
    ∧ holdingFold [exampleCashIn, exampleBuy] = (10, 100) := by
  have hnotle : ¬ ((some amount).getD 0 ≤ 0) := by simpa using not_le.mpr hpos
  have hcash : cashBalance [exampleCashIn, exampleBuy] = 8999 := by
    norm_num [cashBalance, cashDelta, exampleCashIn, exampleBuy]
  have hhold : holdingFold [exampleCashIn, exampleBuy] = (10, 100) := by
    norm_num [holdingFold, exampleCashIn, exampleBuy]
  refine ⟨?_, ?_, ?_, ?_, hcash, hhold⟩
  · unfold createSettlementPreview
    rw [if_neg (by simp), if_neg hnotle, if_pos rfl]
    rfl
  · unfold createSettlementPreview
    rw [if_neg (by simp), if_neg hnotle, if_neg (by simp)]
    rfl
  · intro tx htx
    unfold cashDelta
    rw [htx]
  · intro tx htx
    unfold cashDelta
    rw [htx]

/-- C8 witness: instantiated at amount 1000, fee 1, tax 0 — the example BUY
settles 1001 out of cash. -/
theorem c8_trade_cash_effect_witness :
    (0 : ℚ) < 1000
    ∧ createSettlementPreview true TxType.BUY (some 1000) (some 1) (some 0)
      = some (1000 + 1 + 0)
    ∧ cashBalance [exampleCashIn, exampleBuy] = 8999 :=
  ⟨by norm_num,
   (c8_trade_cash_effect 1000 1 0 (by norm_num)).2.1,
   (c8_trade_cash_effect 1000 1 0 (by norm_num)).2.2.2.2.1⟩

/-! ## C9: drift alert boundary -/

/-- Modelled from the spec: `is_alerted` is computed by the backend drift
endpoint (not under `src/`) as `|drift_pct| ≥ configured threshold`,
boundary inclusive. -/
def isAlerted (drift threshold : ℚ) : Bool :=
  decide (threshold ≤ |drift|)

/-- `DashboardPage` `buildDriftOption` bar item color: the alert color
`#d9363e` is used when the plotted value (`Math.abs(drift_pct)`) is strictly
greater than 5, otherwise the normal color `#1f4f94`. -/
def driftBarIsAlertStyled (absDrift : ℚ) : Bool :=
  decide (5 < absDrift)

/-- `HoldingsPage` drift column text color: the alert color `#d46b08` is used
when `|drift_pct| ≥ 5`. -/
def driftTextIsAlertStyled (drift : ℚ) : Bool :=
  decide (5 ≤ |drift|)

/-- C9 counterexample: at the exact boundary `|drift_pct| = threshold = 5`,
`is_alerted` holds but the dashboard drift bar is not alert-styled (its color
test is strict `> 5`), so the alert-styled rendering does not agree with the
boundary condition as claimed. -/
theorem c9_boundary_counterexample :
    isAlerted 5 5 = true ∧ driftBarIsAlertStyled |(5 : ℚ)| = false := by
  have habs : |(5 : ℚ)| = 5 := abs_of_pos (by norm_num)
  constructor
  · unfold isAlerted
    simp [habs]
  · unfold driftBarIsAlertStyled
    simp [habs]

/-- C9 (amended): `is_alerted` holds exactly when `|drift_pct| ≥ threshold`
(boundary inclusive); the holdings-page drift text rendering agrees with
`is_alerted` at threshold 5 including the boundary, while the dashboard drift
bar agrees everywhere except the exact boundary, where its strict `> 5` test
leaves the bar un-alerted. -/
theorem c9_drift_alert_boundary (drift threshold : ℚ) :
    (isAlerted drift threshold = true ↔ threshold ≤ |drift|)
    ∧ driftTextIsAlertStyled drift = isAlerted drift 5
    ∧ (|drift| ≠ 5 → driftBarIsAlertStyled |drift| = isAlerted drift 5)
    ∧ driftBarIsAlertStyled 5 = false := by
  refine ⟨?_, rfl, ?_, ?_⟩
  · unfold isAlerted
    exact ⟨of_decide_eq_true, decide_eq_true⟩
  · intro hne
    unfold driftBarIsAlertStyled isAlerted
    rw [decide_eq_decide]
    constructor
    · exact le_of_lt
    · intro hle
      exact lt_of_le_of_ne hle (Ne.symm hne)
  · unfold driftBarIsAlertStyled
    rw [decide_eq_false_iff_not]
    norm_num

/-- C9 witness: at drift 7 the bar and the backend alert flag agree. -/
theorem c9_drift_alert_boundary_witness :
    (|(7 : ℚ)| ≠ 5)
    ∧ (driftBarIsAlertStyled |(7 : ℚ)| = isAlerted 7 5) :=
  ⟨by rw [show |(7 : ℚ)| = 7 from abs_of_pos (by norm_num)]; norm_num,
   (c9_drift_alert_boundary 7 5).2.2.1
     (by rw [show |(7 : ℚ)| = 7 from abs_of_pos (by norm_num)]; norm_num)⟩

/-! ## C2: memoized global weight computation (`nodeGlobalWeightMap`) -/

/-- `AllocationPage` `nodeMap.get`: resolve a node id in the tree (the ids are
assumed duplicate-free, as database primary keys are). -/
def findNode (nodes : List AllocNode) (i : ℕ) : Option AllocNode :=
  nodes.find? (fun n => n.id == i)

/-- The plain (unmemoized) global-weight recursion, fueled to make the
recursion on the parent chain structural: a root contributes its own
`target_weight`; a node with a missing parent gets 0; otherwise
`parent global weight * target_weight / 100`. -/
def plainGW : ℕ → List AllocNode → AllocNode → ℚ
  | 0, _, _ => 0
  | fuel + 1, nodes, n =>
    match n.parent_id with
    | none => n.target_weight
    | some pid =>
      match findNode nodes pid with
      | none => 0
      | some parent => plainGW fuel nodes parent * n.target_weight / 100

/-- `AllocationPage` `nodeGlobalWeightMap`'s inner `calc`, with the memo map
as explicit state (an association list, newest entry first) and fuel for the
structural recursion (the JS recursion is bounded by the acyclic parent
chain; any fuel above the chain length behaves identically). -/
def calcGW : ℕ → List AllocNode → AllocNode → List (ℕ × ℚ) → ℚ × List (ℕ × ℚ)
  | 0, _, _, memo => (0, memo)
  | fuel + 1, nodes, n, memo =>
    match memo.lookup n.id with
    | some w => (w, memo)
    | none =>
      match n.parent_id with
      | none => (n.target_weight, (n.id, n.target_weight) :: memo)
      | some pid =>
        match findNode nodes pid with
        | none => (0, (n.id, 0) :: memo)
        | some parent =>
          ((calcGW fuel nodes parent memo).1 * n.target_weight / 100,
           (n.id, (calcGW fuel nodes parent memo).1 * n.target_weight / 100)
             :: (calcGW fuel nodes parent memo).2)

/-- `AllocationPage` `nodeGlobalWeightMap`: run `calc` over every node,
threading the memo map. -/
def nodeGlobalWeightMap (nodes : List AllocNode) : List (ℕ × ℚ) :=
  nodes.foldl (fun memo n => (calcGW (nodes.length + 1) nodes n memo).2) []

/-- The global weight of a node: the plain recursion run with enough fuel for
any acyclic tree over `nodes`. -/
def globalWeight (nodes : List AllocNode) (n : AllocNode) : ℚ :=
  plainGW (nodes.length + 1) nodes n

/-! ### Branch equations -/

theorem plainGW_root (fuel : ℕ) (nodes : List AllocNode) (n : AllocNode)
    (h : n.parent_id = none) : plainGW (fuel + 1) nodes n = n.target_weight := by
  have hstep : plainGW (fuel + 1) nodes n
      = (match n.parent_id with
        | none => n.target_weight
        | some pid =>
          match findNode nodes pid with
          | none => 0
          | some parent => plainGW fuel nodes parent * n.target_weight / 100) := rfl
  rw [hstep, h]

theorem plainGW_orphan (fuel : ℕ) (nodes : List AllocNode) (n : AllocNode)
    (pid : ℕ) (h : n.parent_id = some pid) (hfind : findNode nodes pid = none) :
    plainGW (fuel + 1) nodes n = 0 := by
  have hstep : plainGW (fuel + 1) nodes n
      = (match n.parent_id with
        | none => n.target_weight
        | some pid =>
          match findNode nodes pid with
          | none => 0
          | some parent => plainGW fuel nodes parent * n.target_weight / 100) := rfl
  rw [hstep, h]
  show (match findNode nodes pid with
    | none => (0 : ℚ)
    | some parent => plainGW fuel nodes parent * n.target_weight / 100) = (0 : ℚ)
  rw [hfind]

theorem plainGW_parent (fuel : ℕ) (nodes : List AllocNode) (n parent : AllocNode)
    (pid : ℕ) (h : n.parent_id = some pid) (hfind : findNode nodes pid = some parent) :
    plainGW (fuel + 1) nodes n = plainGW fuel nodes parent * n.target_weight / 100 := by
  have hstep : plainGW (fuel + 1) nodes n
      = (match n.parent_id with
        | none => n.target_weight
        | some pid =>
          match findNode nodes pid with
          | none => 0
          | some parent => plainGW fuel nodes parent * n.target_weight / 100) := rfl
  rw [hstep, h]
  show (match findNode nodes pid with
    | none => (0 : ℚ)
    | some parent => plainGW fuel nodes parent * n.target_weight / 100)
    = plainGW fuel nodes parent * n.target_weight / 100
  rw [hfind]

theorem calcGW_memo_hit (fuel : ℕ) (nodes : List AllocNode) (n : AllocNode)
    (memo : List (ℕ × ℚ)) (w : ℚ) (h : memo.lookup n.id = some w) :
    calcGW (fuel + 1) nodes n memo = (w, memo) := by
  have hstep : calcGW (fuel + 1) nodes n memo
      = (match memo.lookup n.id with
        | some w => (w, memo)
        | none =>
          match n.parent_id with
          | none => (n.target_weight, (n.id, n.target_weight) :: memo)
          | some pid =>
            match findNode nodes pid with
            | none => (0, (n.id, 0) :: memo)
            | some parent =>
              ((calcGW fuel nodes parent memo).1 * n.target_weight / 100,
               (n.id, (calcGW fuel nodes parent memo).1 * n.target_weight / 100)
                 :: (calcGW fuel nodes parent memo).2)) := rfl
  rw [hstep, h]

theorem calcGW_root (fuel : ℕ) (nodes : List AllocNode) (n : AllocNode)
    (memo : List (ℕ × ℚ)) (hm : memo.lookup n.id = none) (h : n.parent_id = none) :
    calcGW (fuel + 1) nodes n memo
      = (n.target_weight, (n.id, n.target_weight) :: memo) := by
  have hstep : calcGW (fuel + 1) nodes n memo
      = (match memo.lookup n.id with
        | some w => (w, memo)
        | none =>
          match n.parent_id with
          | none => (n.target_weight, (n.id, n.target_weight) :: memo)
          | some pid =>
            match findNode nodes pid with
            | none => (0, (n.id, 0) :: memo)
            | some parent =>
              ((calcGW fuel nodes parent memo).1 * n.target_weight / 100,
               (n.id, (calcGW fuel nodes parent memo).1 * n.target_weight / 100)
                 :: (calcGW fuel nodes parent memo).2)) := rfl
  rw [hstep, hm, h]

theorem calcGW_orphan (fuel : ℕ) (nodes : List AllocNode) (n : AllocNode)
    (memo : List (ℕ × ℚ)) (pid : ℕ) (hm : memo.lookup n.id = none)
    (h : n.parent_id = some pid) (hfind : findNode nodes pid = none) :
    calcGW (fuel + 1) nodes n memo = (0, (n.id, 0) :: memo) := by
  have hstep : calcGW (fuel + 1) nodes n memo
      = (match memo.lookup n.id with
        | some w => (w, memo)
        | none =>
          match n.parent_id with
          | none => (n.target_weight, (n.id, n.target_weight) :: memo)
          | some pid =>
            match findNode nodes pid with
            | none => (0, (n.id, 0) :: memo)
            | some parent =>
              ((calcGW fuel nodes parent memo).1 * n.target_weight / 100,
               (n.id, (calcGW fuel nodes parent memo).1 * n.target_weight / 100)
                 :: (calcGW fuel nodes parent memo).2)) := rfl
  rw [hstep, hm, h]
  show (match findNode nodes pid with
    | none => ((0 : ℚ), (n.id, (0 : ℚ)) :: memo)
    | some parent =>
      ((calcGW fuel nodes parent memo).1 * n.target_weight / 100,
       (n.id, (calcGW fuel nodes parent memo).1 * n.target_weight / 100)
         :: (calcGW fuel nodes parent memo).2))
    = ((0 : ℚ), (n.id, (0 : ℚ)) :: memo)
  rw [hfind]

theorem calcGW_parent (fuel : ℕ) (nodes : List AllocNode) (n parent : AllocNode)
    (memo : List (ℕ × ℚ)) (pid : ℕ) (hm : memo.lookup n.id = none)
    (h : n.parent_id = some pid) (hfind : findNode nodes pid = some parent) :
    calcGW (fuel + 1) nodes n memo
      = ((calcGW fuel nodes parent memo).1 * n.target_weight / 100,
         (n.id, (calcGW fuel nodes parent memo).1 * n.target_weight / 100)
           :: (calcGW fuel nodes parent memo).2) := by
  have hstep : calcGW (fuel + 1) nodes n memo
      = (match memo.lookup n.id with
        | some w => (w, memo)
        | none =>
          match n.parent_id with
          | none => (n.target_weight, (n.id, n.target_weight) :: memo)
          | some pid =>
            match findNode nodes pid with
            | none => (0, (n.id, 0) :: memo)
            | some parent =>
              ((calcGW fuel nodes parent memo).1 * n.target_weight / 100,
               (n.id, (calcGW fuel nodes parent memo).1 * n.target_weight / 100)
                 :: (calcGW fuel nodes parent memo).2)) := rfl
  rw [hstep, hm, h]
  show (match findNode nodes pid with
    | none => ((0 : ℚ), (n.id, (0 : ℚ)) :: memo)
    | some parent =>
      ((calcGW fuel nodes parent memo).1 * n.target_weight / 100,
       (n.id, (calcGW fuel nodes parent memo).1 * n.target_weight / 100)
         :: (calcGW fuel nodes parent memo).2))
    = ((calcGW fuel nodes parent memo).1 * n.target_weight / 100,
       (n.id, (calcGW fuel nodes parent memo).1 * n.target_weight / 100)
         :: (calcGW fuel nodes parent memo).2)
  rw [hfind]

/-! ### Association list lookup helpers -/

theorem lookup_cons_self (a : ℕ) (b : ℚ) (l : List (ℕ × ℚ)) :
    ((a, b) :: l).lookup a = some b := by
  simp [List.lookup]

theorem lookup_cons_ne (a : ℕ) (b : ℚ) (l : List (ℕ × ℚ)) (k : ℕ) (h : k ≠ a) :
    ((a, b) :: l).lookup k = l.lookup k := by
  have hb : (k == a) = false := by simp [h]
  simp [List.lookup, hb]

/-! ### Facts about `findNode` -/

theorem findNode_mem {nodes : List AllocNode} {i : ℕ} {p : AllocNode}
    (h : findNode nodes i = some p) : p ∈ nodes ∧ p.id = i := by
  unfold findNode at h
  refine ⟨List.mem_of_find?_eq_some h, ?_⟩
  have := List.find?_some h
  simpa using this

/-! ### Acyclicity hypotheses: a rank function certifying the parent DAG -/

/-- Parents rank strictly below their children (our acyclicity certificate;
any topological order of a finite tree provides one). -/
def ParentRankLt (nodes : List AllocNode) (rank : ℕ → ℕ) : Prop :=
  ∀ n ∈ nodes, ∀ p ∈ nodes, n.parent_id = some p.id → rank p.id < rank n.id

/-- With enough fuel the plain recursion is fuel-independent. -/
theorem plainGW_fuel_invariant (nodes : List AllocNode) (rank : ℕ → ℕ)
    (hpr : ParentRankLt nodes rank) :
    ∀ r : ℕ, ∀ n ∈ nodes, rank n.id = r → ∀ f1 f2 : ℕ, r < f1 → r < f2 →
      plainGW f1 nodes n = plainGW f2 nodes n := by
  intro r
  induction r using Nat.strong_induction_on with
  | _ r ih =>
    intro n hn hr f1 f2 hf1 hf2
    obtain ⟨s1, rfl⟩ : ∃ s, f1 = s + 1 := ⟨f1 - 1, by omega⟩
    obtain ⟨s2, rfl⟩ : ∃ s, f2 = s + 1 := ⟨f2 - 1, by omega⟩
    cases hpar : n.parent_id with
    | none => rw [plainGW_root s1 nodes n hpar, plainGW_root s2 nodes n hpar]
    | some pid =>
      cases hfind : findNode nodes pid with
      | none =>
        rw [plainGW_orphan s1 nodes n pid hpar hfind,
          plainGW_orphan s2 nodes n pid hpar hfind]
      | some parent =>
        rw [plainGW_parent s1 nodes n parent pid hpar hfind,
          plainGW_parent s2 nodes n parent pid hpar hfind]
        obtain ⟨hpmem, hpid⟩ := findNode_mem hfind
        have hplt : rank parent.id < r := by
          subst hr
          exact hpr n hn parent hpmem (by rw [hpar, hpid])
        rw [ih (rank parent.id) hplt parent hpmem rfl s1 s2 (by omega) (by omega)]

/-- Every memo entry records the plain global weight of the node it names. -/
def MemoCoherent (nodes : List AllocNode) (memo : List (ℕ × ℚ)) : Prop :=
  ∀ p ∈ memo, ∃ n ∈ nodes, n.id = p.1 ∧ p.2 = globalWeight nodes n

theorem mem_of_lookup {l : List (ℕ × ℚ)} {k : ℕ} {w : ℚ}
    (h : l.lookup k = some w) : (k, w) ∈ l := by
  induction l with
  | nil => exact Option.noConfusion h
  | cons p l ih =>
    obtain ⟨a, b⟩ := p
    by_cases hk : k = a
    · subst hk
      rw [lookup_cons_self] at h
      cases Option.some.inj h
      exact List.mem_cons_self _ _
    · rw [lookup_cons_ne a b l k hk] at h
      exact List.mem_cons_of_mem _ (ih h)

theorem coherent_lookup {nodes : List AllocNode} {memo : List (ℕ × ℚ)}
    (hnodup : (nodes.map AllocNode.id).Nodup) (hco : MemoCoherent nodes memo)
    {n : AllocNode} (hn : n ∈ nodes) {w : ℚ} (h : memo.lookup n.id = some w) :
    w = globalWeight nodes n := by
  obtain ⟨m, hm, hid, hw⟩ := hco _ (mem_of_lookup h)
  have heq : m = n := allocNode_eq_of_id_eq hnodup hm hn hid
  have hw' : w = globalWeight nodes m := hw
  rw [hw', heq]

/-- The heart of C2: with a coherent memo and enough fuel, `calc` returns the
plain global weight, keeps the memo coherent, records the node, and never
drops an existing entry. -/
theorem calcGW_correct (nodes : List AllocNode) (rank : ℕ → ℕ)
    (hnodup : (nodes.map AllocNode.id).Nodup)
    (hpr : ParentRankLt nodes rank)
    (hrb : ∀ n ∈ nodes, rank n.id < nodes.length) :
    ∀ r : ℕ, ∀ n ∈ nodes, rank n.id = r → ∀ f : ℕ, r < f →
      ∀ memo, MemoCoherent nodes memo →
      (calcGW f nodes n memo).1 = globalWeight nodes n
      ∧ MemoCoherent nodes (calcGW f nodes n memo).2
      ∧ (calcGW f nodes n memo).2.lookup n.id = some (globalWeight nodes n)
      ∧ (∀ k w, memo.lookup k = some w →
          (calcGW f nodes n memo).2.lookup k = some w) := by
  intro r
  induction r using Nat.strong_induction_on with
  | _ r ih =>
    intro n hn hr f hf memo hco
    obtain ⟨s, rfl⟩ : ∃ s, f = s + 1 := ⟨f - 1, by omega⟩
    cases hm : memo.lookup n.id with
    | some w =>
      rw [calcGW_memo_hit s nodes n memo w hm]
      have hw := coherent_lookup hnodup hco hn hm
      exact ⟨hw, hco, by rw [hm, hw], fun k w' h => h⟩
    | none =>
      cases hpar : n.parent_id with
      | none =>
        rw [calcGW_root s nodes n memo hm hpar]
        have hgw : globalWeight nodes n = n.target_weight :=
          plainGW_root nodes.length nodes n hpar
        refine ⟨hgw.symm, ?_, ?_, ?_⟩
        · intro p hp
          rcases List.mem_cons.mp hp with rfl | hpmem
          · exact ⟨n, hn, rfl, hgw.symm⟩
          · exact hco p hpmem
        · rw [lookup_cons_self, hgw]
        · intro k w h
          have hk : k ≠ n.id := fun he => by
            rw [he, hm] at h
            exact Option.noConfusion h
          rw [lookup_cons_ne n.id n.target_weight memo k hk]
          exact h
      | some pid =>
        cases hfind : findNode nodes pid with
        | none =>
          rw [calcGW_orphan s nodes n memo pid hm hpar hfind]
          have hgw : globalWeight nodes n = 0 :=
            plainGW_orphan nodes.length nodes n pid hpar hfind
          refine ⟨hgw.symm, ?_, ?_, ?_⟩
          · intro p hp
            rcases List.mem_cons.mp hp with rfl | hpmem
            · exact ⟨n, hn, rfl, hgw.symm⟩
            · exact hco p hpmem
          · rw [lookup_cons_self, hgw]
          · intro k w h
            have hk : k ≠ n.id := fun he => by
              rw [he, hm] at h
              exact Option.noConfusion h
            rw [lookup_cons_ne n.id 0 memo k hk]
            exact h
        | some parent =>
          rw [calcGW_parent s nodes n parent memo pid hm hpar hfind]
          obtain ⟨hpmem, hpid⟩ := findNode_mem hfind
          have hplt : rank parent.id < r := by
            subst hr
            exact hpr n hn parent hpmem (by rw [hpar, hpid])
          obtain ⟨h1, h2, h3, h4⟩ :=
            ih (rank parent.id) hplt parent hpmem rfl s (by omega) memo hco
          have hgw : globalWeight nodes n
              = globalWeight nodes parent * n.target_weight / 100 := by
            unfold globalWeight
            rw [plainGW_parent nodes.length nodes n parent pid hpar hfind]
            rw [plainGW_fuel_invariant nodes rank hpr (rank parent.id) parent hpmem rfl
              nodes.length (nodes.length + 1) (hrb parent hpmem)
              (Nat.lt_succ_of_lt (hrb parent hpmem))]
          refine ⟨?_, ?_, ?_, ?_⟩
          · rw [h1, hgw]
          · intro p hp
            rcases List.mem_cons.mp hp with rfl | hpm
            · exact ⟨n, hn, rfl, by rw [h1, hgw]⟩
            · exact h2 p hpm
          · rw [lookup_cons_self, h1, hgw]
          · intro k w h
            have hk : k ≠ n.id := fun he => by
              rw [he, hm] at h
              exact Option.noConfusion h
            rw [lookup_cons_ne _ _ _ k hk]
            exact h4 k w h

/-- Folding `calc` over a worklist keeps the memo coherent, preserves already
recorded weights, and records every processed node's plain global weight. -/
theorem foldl_calcGW_correct (nodes : List AllocNode) (rank : ℕ → ℕ)
    (hnodup : (nodes.map AllocNode.id).Nodup)
    (hpr : ParentRankLt nodes rank)
    (hrb : ∀ n ∈ nodes, rank n.id < nodes.length) :
    ∀ l : List AllocNode, (∀ n ∈ l, n ∈ nodes) →
      ∀ memo, MemoCoherent nodes memo →
      MemoCoherent nodes
        (l.foldl (fun memo n => (calcGW (nodes.length + 1) nodes n memo).2) memo)
      ∧ (∀ k w, memo.lookup k = some w →
          (l.foldl (fun memo n => (calcGW (nodes.length + 1) nodes n memo).2)
            memo).lookup k = some w)
      ∧ (∀ n ∈ l,
          (l.foldl (fun memo n => (calcGW (nodes.length + 1) nodes n memo).2)
            memo).lookup n.id = some (globalWeight nodes n)) := by
  intro l
  induction l with
  | nil =>
    intro _ memo hco
    refine ⟨hco, fun k w h => h, ?_⟩
    intro n hn
    cases hn
  | cons a l ih =>
    intro hsub memo hco
    have ha : a ∈ nodes := hsub a (List.mem_cons_self a l)
    obtain ⟨g1, g2, g3, g4⟩ :=
      calcGW_correct nodes rank hnodup hpr hrb (rank a.id) a ha rfl
        (nodes.length + 1) (Nat.lt_succ_of_lt (hrb a ha)) memo hco
    obtain ⟨r1, r2, r3⟩ :=
      ih (fun n hn => hsub n (List.mem_cons_of_mem a hn)) _ g2
    refine ⟨?_, ?_, ?_⟩
    · rw [List.foldl_cons]
      exact r1
    · intro k w h
      rw [List.foldl_cons]
      exact r2 k w (g4 k w h)
    · intro n hn
      rw [List.foldl_cons]
      rcases List.mem_cons.mp hn with rfl | hmem
      · exact r2 _ _ g3
      · exact r3 n hmem

/-- C2: for every node of a duplicate-free allocation tree (acyclicity
certified by a rank function), the memoized `nodeGlobalWeightMap` records
exactly the plain recursive global weight — memoization does not change the
result — and that weight satisfies the claimed recurrence: roots keep their
own `target_weight`, a node whose parent id resolves gets the parent's global
weight times its own `target_weight` over 100, and a node whose parent is
missing from the map gets 0. -/
theorem c2_global_weight_map (nodes : List AllocNode) (rank : ℕ → ℕ)
    (hnodup : (nodes.map AllocNode.id).Nodup)
    (hpr : ∀ n ∈ nodes, ∀ p ∈ nodes, n.parent_id = some p.id → rank p.id < rank n.id)
    (hrb : ∀ n ∈ nodes, rank n.id < nodes.length) :
    ∀ n ∈ nodes,
      (nodeGlobalWeightMap nodes).lookup n.id = some (globalWeight nodes n)
      ∧ (n.parent_id = none → globalWeight nodes n = n.target_weight)
      ∧ (∀ pid, n.parent_id = some pid → findNode nodes pid = none →
          globalWeight nodes n = 0)
      ∧ (∀ pid parent, n.parent_id = some pid → findNode nodes pid = some parent →
          (nodeGlobalWeightMap nodes).lookup parent.id
            = some (globalWeight nodes parent)
          ∧ globalWeight nodes n
            = globalWeight nodes parent * n.target_weight / 100) := by
  intro n hn
  obtain ⟨-, -, hlook⟩ :=
    foldl_calcGW_correct nodes rank hnodup hpr hrb nodes (fun m hm => hm) []
      (by intro p hp; cases hp)
  refine ⟨hlook n hn, ?_, ?_, ?_⟩
  · intro hpar
    exact plainGW_root nodes.length nodes n hpar
  · intro pid hpar hfind
    exact plainGW_orphan nodes.length nodes n pid hpar hfind
  · intro pid parent hpar hfind
    obtain ⟨hpmem, hpid⟩ := findNode_mem hfind
    refine ⟨hlook parent hpmem, ?_⟩
    unfold globalWeight
    rw [plainGW_parent nodes.length nodes n parent pid hpar hfind]
    rw [plainGW_fuel_invariant nodes rank hpr (rank parent.id) parent hpmem rfl
      nodes.length (nodes.length + 1) (hrb parent hpmem)
      (Nat.lt_succ_of_lt (hrb parent hpmem))]

/-- A concrete three-node tree for the C2 witness: a root, a child of the
root, and a node whose parent id (9) is missing from the tree. -/
def c2nodes : List AllocNode :=
  [⟨1, none, 60⟩, ⟨2, some 1, 50⟩, ⟨3, some 9, 10⟩]

/-- A topological rank for `c2nodes`. -/
def c2rank : ℕ → ℕ := fun i => i - 1

/-- C2 witness: the hypotheses hold for the concrete tree and the memoized
map records the plain global weight of the child node. -/
theorem c2_global_weight_map_witness :
    ((c2nodes.map AllocNode.id).Nodup
    ∧ (∀ n ∈ c2nodes, ∀ p ∈ c2nodes, n.parent_id = some p.id →
        c2rank p.id < c2rank n.id)
    ∧ (∀ n ∈ c2nodes, c2rank n.id < c2nodes.length)
    ∧ (⟨2, some 1, 50⟩ : AllocNode) ∈ c2nodes)
    ∧ (nodeGlobalWeightMap c2nodes).lookup 2
        = some (globalWeight c2nodes ⟨2, some 1, 50⟩) :=
  ⟨⟨by decide, by decide, by decide, by decide⟩,
   (c2_global_weight_map c2nodes c2rank (by decide) (by decide) (by decide)
     ⟨2, some 1, 50⟩ (by decide)).1⟩

/-! ## C10: Shanghai local datetime conversions (TransactionsPage)

The JS runtime pieces (`Date.UTC`, `toISOString`, `new Date(string)`,
`getUTC*`) are modelled after the ECMAScript specification on the proleptic
Gregorian calendar; the repository functions are embedded on `List Char`
(JS strings).  JS `NaN`-range behaviour (instants beyond ±8.64e15 ms) is
modelled by `Option` at `toISOString`/parsing. -/

/-! ### Digit strings -/

/-- The character of a decimal digit. -/
def digitChar (d : ℕ) : Char := Char.ofNat (48 + d)

def natDigitsAux : ℕ → ℕ → List Char
  | 0, _ => []
  | fuel + 1, n =>
    if n < 10 then [digitChar n]
    else natDigitsAux fuel (n / 10) ++ [digitChar (n % 10)]

/-- `String(n)` for a natural number: its decimal digits. -/
def natDigits (n : ℕ) : List Char := natDigitsAux (n + 1) n

/-- `String(i)` for an integer (a leading minus sign when negative). -/
def intToString (i : ℤ) : List Char :=
  if i < 0 then '-' :: natDigits (-i).toNat else natDigits i.toNat

/-- `String(n).padStart(w, "0")`. -/
def padTo (w n : ℕ) : List Char :=
  List.replicate (w - (natDigits n).length) '0' ++ natDigits n

/-- `TransactionsPage` `pad2`: `String(value).padStart(2, "0")`. -/
def pad2 (n : ℕ) : List Char := padTo 2 n

def charDigit (c : Char) : ℕ := c.toNat - 48

def isDigitChar (c : Char) : Bool := decide (48 ≤ c.toNat ∧ c.toNat ≤ 57)

/-- `Number()` of a two-digit string. -/
def parse2 (a b : Char) : ℕ := charDigit a * 10 + charDigit b

/-- `Number()` of a three-digit string. -/
def parse3 (a b c : Char) : ℕ := (charDigit a * 10 + charDigit b) * 10 + charDigit c

/-- `Number()` of a four-digit string. -/
def parse4 (a b c d : Char) : ℕ :=
  ((charDigit a * 10 + charDigit b) * 10 + charDigit c) * 10 + charDigit d

theorem charDigit_digitChar : ∀ k < 10, charDigit (digitChar k) = k := by decide

theorem isDigitChar_digitChar : ∀ k < 10, isDigitChar (digitChar k) = true := by decide

theorem natDigitsAux_small (fuel n : ℕ) (hf : 1 ≤ fuel) (h : n < 10) :
    natDigitsAux fuel n = [digitChar n] := by
  obtain ⟨k, rfl⟩ : ∃ k, fuel = k + 1 := ⟨fuel - 1, by omega⟩
  show (if n < 10 then [digitChar n]
    else natDigitsAux k (n / 10) ++ [digitChar (n % 10)]) = [digitChar n]
  rw [if_pos h]

theorem natDigitsAux_step (fuel n : ℕ) (hf : 1 ≤ fuel) (h : ¬ n < 10) :
    natDigitsAux fuel n = natDigitsAux (fuel - 1) (n / 10) ++ [digitChar (n % 10)] := by
  obtain ⟨k, rfl⟩ : ∃ k, fuel = k + 1 := ⟨fuel - 1, by omega⟩
  show (if n < 10 then [digitChar n]
    else natDigitsAux k (n / 10) ++ [digitChar (n % 10)])
    = natDigitsAux (k + 1 - 1) (n / 10) ++ [digitChar (n % 10)]
  rw [if_neg h]
  simp

theorem natDigits_one (n : ℕ) (h : n < 10) : natDigits n = [digitChar n] :=
  natDigitsAux_small (n + 1) n (by omega) h

theorem natDigits_two (n : ℕ) (h1 : 10 ≤ n) (h2 : n < 100) :
    natDigits n = [digitChar (n / 10), digitChar (n % 10)] := by
  unfold natDigits
  rw [natDigitsAux_step (n + 1) n (by omega) (by omega)]
  rw [natDigitsAux_small (n + 1 - 1) (n / 10) (by omega) (by omega)]
  rfl

theorem natDigits_three (n : ℕ) (h1 : 100 ≤ n) (h2 : n < 1000) :
    natDigits n = [digitChar (n / 100), digitChar (n / 10 % 10), digitChar (n % 10)] := by
  unfold natDigits
  rw [natDigitsAux_step (n + 1) n (by omega) (by omega)]
  rw [natDigitsAux_step (n + 1 - 1) (n / 10) (by omega) (by omega)]
  rw [natDigitsAux_small (n + 1 - 1 - 1) (n / 10 / 10) (by omega) (by omega)]
  rw [Nat.div_div_eq_div_mul]
  rfl

theorem natDigits_four (n : ℕ) (h1 : 1000 ≤ n) (h2 : n < 10000) :
    natDigits n
      = [digitChar (n / 1000), digitChar (n / 100 % 10),
         digitChar (n / 10 % 10), digitChar (n % 10)] := by
  unfold natDigits
  rw [natDigitsAux_step (n + 1) n (by omega) (by omega)]
  rw [natDigitsAux_step (n + 1 - 1) (n / 10) (by omega) (by omega)]
  rw [natDigitsAux_step (n + 1 - 1 - 1) (n / 10 / 10) (by omega) (by omega)]
  rw [natDigitsAux_small (n + 1 - 1 - 1 - 1) (n / 10 / 10 / 10) (by omega) (by omega)]
  rw [Nat.div_div_eq_div_mul, Nat.div_div_eq_div_mul]
  have e1 : n / 10 / 10 % 10 = n / 100 % 10 := by rw [Nat.div_div_eq_div_mul]
  rw [e1]
  rfl

theorem padTo2_eq (n : ℕ) (h : n < 100) :
    padTo 2 n = [digitChar (n / 10), digitChar (n % 10)] := by
  by_cases h1 : n < 10
  · unfold padTo
    rw [natDigits_one n h1]
    have e1 : n / 10 = 0 := by omega
    have e2 : n % 10 = n := by omega
    rw [e1, e2]
    rfl
  · unfold padTo
    rw [natDigits_two n (by omega) h]
    rfl

theorem padTo3_eq (n : ℕ) (h : n < 1000) :
    padTo 3 n = [digitChar (n / 100), digitChar (n / 10 % 10), digitChar (n % 10)] := by
  by_cases h1 : n < 10
  · unfold padTo
    rw [natDigits_one n h1]
    have e1 : n / 100 = 0 := by omega
    have e2 : n / 10 % 10 = 0 := by omega
    have e3 : n % 10 = n := by omega
    rw [e1, e2, e3]
    rfl
  · by_cases h2 : n < 100
    · unfold padTo
      rw [natDigits_two n (by omega) h2]
      have e1 : n / 100 = 0 := by omega
      have e2 : n / 10 % 10 = n / 10 := by omega
      rw [e1, e2]
      rfl
    · unfold padTo
      rw [natDigits_three n (by omega) h]
      rfl

theorem padTo4_eq (n : ℕ) (h : n < 10000) :
    padTo 4 n
      = [digitChar (n / 1000), digitChar (n / 100 % 10),
         digitChar (n / 10 % 10), digitChar (n % 10)] := by
  by_cases h1 : n < 10
  · unfold padTo
    rw [natDigits_one n h1]
    have e1 : n / 1000 = 0 := by omega
    have e2 : n / 100 % 10 = 0 := by omega
    have e3 : n / 10 % 10 = 0 := by omega
    have e4 : n % 10 = n := by omega
    rw [e1, e2, e3, e4]
    rfl
  · by_cases h2 : n < 100
    · unfold padTo
      rw [natDigits_two n (by omega) h2]
      have e1 : n / 1000 = 0 := by omega
      have e2 : n / 100 % 10 = 0 := by omega
      have e3 : n / 10 % 10 = n / 10 := by omega
      rw [e1, e2, e3]
      rfl
    · by_cases h3 : n < 1000
      · unfold padTo
        rw [natDigits_three n (by omega) h3]
        have e1 : n / 1000 = 0 := by omega
        have e2 : n / 100 % 10 = n / 100 := by omega
        rw [e1, e2]
        rfl
      · unfold padTo
        rw [natDigits_four n (by omega) h]
        rfl

theorem intToString_of_big (n : ℕ) (h1 : 1000 ≤ n) (h2 : n < 10000) :
    intToString (n : ℤ) = padTo 4 n := by
  unfold intToString
  rw [if_neg (by omega)]
  have e : ((n : ℤ)).toNat = n := rfl
  rw [e]
  unfold padTo
  rw [natDigits_four n h1 h2]
  rfl

theorem parse2_digits (n : ℕ) (h : n < 100) :
    parse2 (digitChar (n / 10)) (digitChar (n % 10)) = n := by
  unfold parse2
  rw [charDigit_digitChar (n / 10) (by omega), charDigit_digitChar (n % 10) (by omega)]
  omega

theorem parse3_digits (n : ℕ) (h : n < 1000) :
    parse3 (digitChar (n / 100)) (digitChar (n / 10 % 10)) (digitChar (n % 10)) = n := by
  unfold parse3
  rw [charDigit_digitChar (n / 100) (by omega), charDigit_digitChar (n / 10 % 10) (by omega),
    charDigit_digitChar (n % 10) (by omega)]
  omega

theorem parse4_digits (n : ℕ) (h : n < 10000) :
    parse4 (digitChar (n / 1000)) (digitChar (n / 100 % 10))
      (digitChar (n / 10 % 10)) (digitChar (n % 10)) = n := by
  unfold parse4
  rw [charDigit_digitChar (n / 1000) (by omega), charDigit_digitChar (n / 100 % 10) (by omega),
    charDigit_digitChar (n / 10 % 10) (by omega), charDigit_digitChar (n % 10) (by omega)]
  omega

/-! ### Proleptic Gregorian calendar core (ECMAScript day-number semantics)

Day numbers count days since 0000-03-01 (March-based years), the standard
era decomposition of the Gregorian calendar: 400 years = 146097 days.
`EPOCH_SHIFT` is the day number of 1970-01-01. -/

def msPerDay : ℤ := 86400000

def EPOCH_SHIFT : ℤ := 719468

/-- Day of the March-based year at which March-month `mp` (March = 0 …
February = 11) starts. -/
def doyFromMarchMonth (mp : ℕ) : ℕ := (153 * mp + 2) / 5

/-- Days before March-year `yoe` within its 400-year era. -/
def daysBeforeMarchYear (yoe : ℕ) : ℕ := 365 * yoe + yoe / 4 - yoe / 100

/-- 1 when March-year `yoe` of an era contains a leap day (its February
belongs to civil year `yoe+1` of the era). -/
def eraLeapBit (yoe : ℕ) : ℕ :=
  if (yoe + 1) % 4 = 0 ∧ ((yoe + 1) % 100 ≠ 0 ∨ (yoe + 1) % 400 = 0) then 1 else 0

/-- Length in days of March-year `yoe` within its era. -/
def marchYearLen (yoe : ℕ) : ℕ := 365 + eraLeapBit yoe

/-- Day number of the first day of civil month `m` (1–12) of civil year `y`. -/
def marchBase (y : ℤ) (m : ℕ) : ℤ :=
  let ys : ℤ := if m ≤ 2 then y - 1 else y
  let mp : ℕ := if m ≤ 2 then m + 9 else m - 3
  let era : ℤ := ys / 400
  let yoe : ℕ := (ys % 400).toNat
  era * 146097 + ((daysBeforeMarchYear yoe + doyFromMarchMonth mp : ℕ) : ℤ)

/-- Largest March-year `j ≤ bound` whose first day is at or before `doe`
(the ECMAScript `YearFromTime` characterization, restricted to one era). -/
def yoeSearch : ℕ → ℕ → ℕ
  | _, 0 => 0
  | doe, y + 1 => if daysBeforeMarchYear (y + 1) ≤ doe then y + 1 else yoeSearch doe y

def yoeOf (doe : ℕ) : ℕ := yoeSearch doe 399

/-- Largest March-month whose first day is at or before `doy` (the
ECMAScript `MonthFromTime` characterization). -/
def monthSearch : ℕ → ℕ → ℕ
  | _, 0 => 0
  | doy, m + 1 => if doyFromMarchMonth (m + 1) ≤ doy then m + 1 else monthSearch doy m

def monthOfDoy (doy : ℕ) : ℕ := monthSearch doy 11

/-- Civil (year, month 1–12, day 1–31) of a day number. -/
def civilFromDayNumber (dn : ℤ) : ℤ × ℕ × ℕ :=
  let era : ℤ := dn / 146097
  let doe : ℕ := (dn % 146097).toNat
  let yoe : ℕ := yoeOf doe
  let doy : ℕ := doe - daysBeforeMarchYear yoe
  let mp : ℕ := monthOfDoy doy
  let d : ℕ := doy - doyFromMarchMonth mp + 1
  let m : ℕ := if mp < 10 then mp + 3 else mp - 9
  (era * 400 + (yoe : ℤ) + (if m ≤ 2 then 1 else 0), m, d)

def isLeapYear (y : ℤ) : Bool :=
  decide (y % 4 = 0 ∧ (y % 100 ≠ 0 ∨ y % 400 = 0))

def daysInMonth (y : ℤ) (m : ℕ) : ℕ :=
  if m = 2 then 28 + (if isLeapYear y then 1 else 0)
  else if m = 4 ∨ m = 6 ∨ m = 9 ∨ m = 11 then 30 else 31

/-- A valid civil date. -/
def ValidDate (y : ℤ) (m d : ℕ) : Prop :=
  1 ≤ m ∧ m ≤ 12 ∧ 1 ≤ d ∧ d ≤ daysInMonth y m

/-! ### Fixed-size calendar facts (finite checks) -/

theorem marchYear_fits_era : ∀ yoe < 400,
    daysBeforeMarchYear yoe + marchYearLen yoe ≤ 146097 := by decide

theorem daysBefore_succ : ∀ yoe < 399,
    daysBeforeMarchYear (yoe + 1) = daysBeforeMarchYear yoe + marchYearLen yoe := by
  decide

theorem daysBefore_last : daysBeforeMarchYear 399 + marchYearLen 399 = 146097 := by decide

theorem daysBefore_mono {a b : ℕ} (h : a ≤ b) :
    daysBeforeMarchYear a ≤ daysBeforeMarchYear b := by
  unfold daysBeforeMarchYear
  have h4 : a / 4 ≤ b / 4 := Nat.div_le_div_right h
  have h100 : a / 100 ≤ b / 100 := Nat.div_le_div_right h
  have ha : a / 100 ≤ a / 4 := Nat.div_le_div_left (by norm_num) (by norm_num)
  have hb : b / 100 ≤ b / 4 := Nat.div_le_div_left (by norm_num) (by norm_num)
  omega

theorem doyMonth_mono : ∀ a ≤ 12, ∀ b ≤ 12, a ≤ b →
    doyFromMarchMonth a ≤ doyFromMarchMonth b := by decide

/-! ### Search function characterizations -/

theorem yoeSearch_le (doe : ℕ) : ∀ m, yoeSearch doe m ≤ m := by
  intro m
  induction m with
  | zero => exact Nat.le_refl 0
  | succ k ih =>
    show (if daysBeforeMarchYear (k + 1) ≤ doe then k + 1 else yoeSearch doe k) ≤ k + 1
    by_cases h : daysBeforeMarchYear (k + 1) ≤ doe
    · rw [if_pos h]
    · rw [if_neg h]
      omega

theorem yoeSearch_start (doe : ℕ) : ∀ m, daysBeforeMarchYear (yoeSearch doe m) ≤ doe := by
  intro m
  induction m with
  | zero =>
    show daysBeforeMarchYear 0 ≤ doe
    unfold daysBeforeMarchYear
    omega
  | succ k ih =>
    show daysBeforeMarchYear
      (if daysBeforeMarchYear (k + 1) ≤ doe then k + 1 else yoeSearch doe k) ≤ doe
    by_cases h : daysBeforeMarchYear (k + 1) ≤ doe
    · rw [if_pos h]
      exact h
    · rw [if_neg h]
      exact ih

theorem yoeSearch_ge (doe : ℕ) : ∀ m j, j ≤ m → daysBeforeMarchYear j ≤ doe →
    j ≤ yoeSearch doe m := by
  intro m
  induction m with
  | zero =>
    intro j hj _
    exact hj.trans (Nat.le_refl 0)
  | succ k ih =>
    intro j hj hfj
    show j ≤ if daysBeforeMarchYear (k + 1) ≤ doe then k + 1 else yoeSearch doe k
    by_cases h : daysBeforeMarchYear (k + 1) ≤ doe
    · rw [if_pos h]
      exact hj
    · rw [if_neg h]
      have hjk : j ≤ k := by
        rcases Nat.lt_or_ge j (k + 1) with hlt | hge
        · omega
        · exfalso
          have : j = k + 1 := by omega
          rw [this] at hfj
          exact h hfj
      exact ih j hjk hfj

theorem monthSearch_le (doy : ℕ) : ∀ m, monthSearch doy m ≤ m := by
  intro m
  induction m with
  | zero => exact Nat.le_refl 0
  | succ k ih =>
    show (if doyFromMarchMonth (k + 1) ≤ doy then k + 1 else monthSearch doy k) ≤ k + 1
    by_cases h : doyFromMarchMonth (k + 1) ≤ doy
    · rw [if_pos h]
    · rw [if_neg h]
      omega

theorem monthSearch_start (doy : ℕ) :
    ∀ m, doyFromMarchMonth (monthSearch doy m) ≤ doy := by
  intro m
  induction m with
  | zero =>
    show doyFromMarchMonth 0 ≤ doy
    unfold doyFromMarchMonth
    omega
  | succ k ih =>
    show doyFromMarchMonth
      (if doyFromMarchMonth (k + 1) ≤ doy then k + 1 else monthSearch doy k) ≤ doy
    by_cases h : doyFromMarchMonth (k + 1) ≤ doy
    · rw [if_pos h]
      exact h
    · rw [if_neg h]
      exact ih

theorem monthSearch_ge (doy : ℕ) : ∀ m j, j ≤ m → doyFromMarchMonth j ≤ doy →
    j ≤ monthSearch doy m := by
  intro m
  induction m with
  | zero =>
    intro j hj _
    exact hj.trans (Nat.le_refl 0)
  | succ k ih =>
    intro j hj hfj
    show j ≤ if doyFromMarchMonth (k + 1) ≤ doy then k + 1 else monthSearch doy k
    by_cases h : doyFromMarchMonth (k + 1) ≤ doy
    · rw [if_pos h]
      exact hj
    · rw [if_neg h]
      have hjk : j ≤ k := by
        rcases Nat.lt_or_ge j (k + 1) with hlt | hge
        · omega
        · exfalso
          have : j = k + 1 := by omega
          rw [this] at hfj
          exact h hfj
      exact ih j hjk hfj

/-- Uniqueness side of `yoeOf`: a half-open window pins the searched value. -/
theorem yoeOf_eq (doe yoe : ℕ) (hy : yoe ≤ 399)
    (h1 : daysBeforeMarchYear yoe ≤ doe)
    (h2 : doe < daysBeforeMarchYear yoe + marchYearLen yoe) :
    yoeOf doe = yoe := by
  have hge : yoe ≤ yoeOf doe := yoeSearch_ge doe 399 yoe hy h1
  have hle : yoeOf doe ≤ 399 := yoeSearch_le doe 399
  have hstart : daysBeforeMarchYear (yoeOf doe) ≤ doe := yoeSearch_start doe 399
  rcases Nat.lt_or_ge yoe (yoeOf doe) with hlt | hge2
  · exfalso
    have hsucc : yoe + 1 ≤ yoeOf doe := hlt
    have hyoe399 : yoe < 399 := by omega
    have hstep := daysBefore_succ yoe hyoe399
    have hmono := daysBefore_mono hsucc
    omega
  · omega

/-- Uniqueness side of `monthOfDoy`. -/
theorem monthOfDoy_eq (doy mp : ℕ) (hm : mp ≤ 11)
    (h1 : doyFromMarchMonth mp ≤ doy)
    (h2 : mp < 11 → doy < doyFromMarchMonth (mp + 1)) :
    monthOfDoy doy = mp := by
  have hge : mp ≤ monthOfDoy doy := monthSearch_ge doy 11 mp hm h1
  have hle : monthOfDoy doy ≤ 11 := monthSearch_le doy 11
  have hstart : doyFromMarchMonth (monthOfDoy doy) ≤ doy := monthSearch_start doy 11
  rcases Nat.lt_or_ge mp (monthOfDoy doy) with hlt | hge2
  · exfalso
    have hmp11 : mp < 11 := by omega
    have hup := h2 hmp11
    have hmono := doyMonth_mono (mp + 1) (by omega) (monthOfDoy doy) (by omega) hlt
    omega
  · omega

/-! ### Day-number round trips -/

theorem daysInMonth_nonFeb (y : ℤ) (m : ℕ) (hm : m ≠ 2) :
    daysInMonth y m = if m = 4 ∨ m = 6 ∨ m = 9 ∨ m = 11 then 30 else 31 := by
  unfold daysInMonth
  rw [if_neg hm]

theorem nonFeb_fits_year : ∀ m, 3 ≤ m → m ≤ 12 →
    doyFromMarchMonth (m - 3) + (if m = 4 ∨ m = 6 ∨ m = 9 ∨ m = 11 then 30 else 31)
      ≤ 365 := by decide

theorem nonFeb_fits_month : ∀ m, 3 ≤ m → m ≤ 12 →
    doyFromMarchMonth (m - 3) + (if m = 4 ∨ m = 6 ∨ m = 9 ∨ m = 11 then 30 else 31)
      ≤ doyFromMarchMonth (m - 3 + 1) := by decide

theorem cum10_val : doyFromMarchMonth 10 = 306 := by decide

theorem cum11_val : doyFromMarchMonth 11 = 337 := by decide

theorem marchYearLen_ge (yoe : ℕ) : 365 ≤ marchYearLen yoe := by
  unfold marchYearLen
  omega

theorem marchYearLen_le (yoe : ℕ) : marchYearLen yoe ≤ 366 := by
  unfold marchYearLen eraLeapBit
  by_cases h : (yoe + 1) % 4 = 0 ∧ ((yoe + 1) % 100 ≠ 0 ∨ (yoe + 1) % 400 = 0)
  · rw [if_pos h]
  · rw [if_neg h]
    omega

theorem leap_era (era : ℤ) (yoe : ℕ) :
    (if isLeapYear (400 * era + (yoe : ℤ) + 1) then 1 else 0) = eraLeapBit yoe := by
  unfold isLeapYear eraLeapBit
  simp only [decide_eq_true_eq]
  have hiff : ((400 * era + (yoe : ℤ) + 1) % 4 = 0
      ∧ ((400 * era + (yoe : ℤ) + 1) % 100 ≠ 0 ∨ (400 * era + (yoe : ℤ) + 1) % 400 = 0))
      ↔ ((yoe + 1) % 4 = 0 ∧ ((yoe + 1) % 100 ≠ 0 ∨ (yoe + 1) % 400 = 0)) := by
    omega
  rw [if_congr hiff rfl rfl]

/-- C10 core, forward direction: the civil decomposition inverts the day
number of every valid date. -/
theorem civilFromDayNumber_marchBase (y : ℤ) (m d : ℕ) (hv : ValidDate y m d) :
    civilFromDayNumber (marchBase y m + ((d : ℤ) - 1)) = (y, m, d) := by
  obtain ⟨h1m, h12m, h1d, hdm⟩ := hv
  by_cases hm2 : m ≤ 2
  · -- January or February: the March-year is the previous civil year
    set era := (y - 1) / 400 with hera_def
    set yoe := ((y - 1) % 400).toNat with hyoe_def
    have hyoe399 : yoe ≤ 399 := by omega
    have hy_eq : y - 1 = 400 * era + (yoe : ℤ) := by omega
    have hm12 : m = 1 ∨ m = 2 := by omega
    have hlen : (m = 1 → d ≤ 31) ∧ (m = 2 → d ≤ 28 + eraLeapBit yoe) := by
      rcases hm12 with rfl | rfl
      · have h31 : daysInMonth y 1 = 31 := by
          unfold daysInMonth
          norm_num
        rw [h31] at hdm
        exact ⟨fun _ => hdm, fun h => by omega⟩
      · have h28 : daysInMonth y 2 = 28 + eraLeapBit yoe := by
          unfold daysInMonth
          rw [if_pos rfl]
          have hy1 : y = 400 * era + (yoe : ℤ) + 1 := by omega
          rw [hy1, leap_era era yoe]
        rw [h28] at hdm
        exact ⟨fun h => by omega, fun _ => hdm⟩
    set mp := m + 9 with hmp_def
    set doy := doyFromMarchMonth mp + (d - 1) with hdoy_def
    have hdoy_mylen : doy < marchYearLen yoe := by
      unfold marchYearLen
      rcases hm12 with rfl | rfl
      · have hc : doyFromMarchMonth mp = 306 := by rw [hmp_def]; exact cum10_val
        have hd31 := hlen.1 rfl
        omega
      · have hc : doyFromMarchMonth mp = 337 := by rw [hmp_def]; exact cum11_val
        have hd28 := hlen.2 rfl
        omega
    have hdn : marchBase y m + ((d : ℤ) - 1)
        = era * 146097 + ((daysBeforeMarchYear yoe + doy : ℕ) : ℤ) := by
      dsimp only [marchBase]
      rw [if_pos hm2, if_pos hm2]
      rw [← hera_def, ← hyoe_def, ← hmp_def]
      push_cast
      omega
    have hdoe_lt : daysBeforeMarchYear yoe + doy < 146097 := by
      have := marchYear_fits_era yoe (by omega)
      omega
    have hdiv : (era * 146097 + ((daysBeforeMarchYear yoe + doy : ℕ) : ℤ)) / 146097
        = era := by omega
    have hmod : ((era * 146097 + ((daysBeforeMarchYear yoe + doy : ℕ) : ℤ)) % 146097).toNat
        = daysBeforeMarchYear yoe + doy := by omega
    have hyoeOf : yoeOf (daysBeforeMarchYear yoe + doy) = yoe :=
      yoeOf_eq _ yoe hyoe399 (by omega) (by omega)
    have hdoysub : daysBeforeMarchYear yoe + doy - daysBeforeMarchYear yoe = doy := by
      omega
    have hcum_le : doyFromMarchMonth mp ≤ doy := by omega
    have hmonth : monthOfDoy doy = mp := by
      refine monthOfDoy_eq doy mp (by omega) hcum_le ?_
      intro hlt
      rcases hm12 with rfl | rfl
      · have hcum10 : doyFromMarchMonth mp = 306 := by rw [hmp_def]; exact cum10_val
        have hcum11 : doyFromMarchMonth (mp + 1) = 337 := by rw [hmp_def]; exact cum11_val
        have hd31 := hlen.1 rfl
        omega
      · exfalso
        rw [hmp_def] at hlt
        omega
    have hd_rec : doy - doyFromMarchMonth mp + 1 = d := by omega
    have hm_rec : (if mp < 10 then mp + 3 else mp - 9) = m := by
      rw [if_neg (by omega)]
      omega
    rw [hdn]
    dsimp only [civilFromDayNumber]
    rw [hdiv, hmod, hyoeOf, hdoysub, hmonth, hd_rec, hm_rec]
    rw [if_pos hm2]
    have hfin : era * 400 + (yoe : ℤ) + 1 = y := by omega
    rw [hfin]
  · -- March to December: the March-year is the civil year itself
    have hm3 : 3 ≤ m := by omega
    have hdm' : d ≤ (if m = 4 ∨ m = 6 ∨ m = 9 ∨ m = 11 then 30 else 31) := by
      rw [← daysInMonth_nonFeb y m (by omega)]
      exact hdm
    set era := y / 400 with hera_def
    set yoe := (y % 400).toNat with hyoe_def
    have hyoe399 : yoe ≤ 399 := by omega
    have hy_eq : y = 400 * era + (yoe : ℤ) := by omega
    set mp := m - 3 with hmp_def
    have hmp9 : mp ≤ 9 := by omega
    set doy := doyFromMarchMonth mp + (d - 1) with hdoy_def
    have hdoy_lt1 : doy < doyFromMarchMonth (mp + 1) := by
      have hnf := nonFeb_fits_month m hm3 h12m
      rw [← hmp_def] at hnf
      omega
    have hdoy_le364 : doy ≤ 364 := by
      have hnf := nonFeb_fits_year m hm3 h12m
      rw [← hmp_def] at hnf
      omega
    have hdoy_mylen : doy < marchYearLen yoe := by
      have := marchYearLen_ge yoe
      omega
    have hdn : marchBase y m + ((d : ℤ) - 1)
        = era * 146097 + ((daysBeforeMarchYear yoe + doy : ℕ) : ℤ) := by
      dsimp only [marchBase]
      rw [if_neg hm2, if_neg hm2]
      rw [← hera_def, ← hyoe_def, ← hmp_def]
      push_cast
      omega
    have hdoe_lt : daysBeforeMarchYear yoe + doy < 146097 := by
      have := marchYear_fits_era yoe (by omega)
      omega
    have hdiv : (era * 146097 + ((daysBeforeMarchYear yoe + doy : ℕ) : ℤ)) / 146097
        = era := by omega
    have hmod : ((era * 146097 + ((daysBeforeMarchYear yoe + doy : ℕ) : ℤ)) % 146097).toNat
        = daysBeforeMarchYear yoe + doy := by omega
    have hyoeOf : yoeOf (daysBeforeMarchYear yoe + doy) = yoe :=
      yoeOf_eq _ yoe hyoe399 (by omega) (by omega)
    have hdoysub : daysBeforeMarchYear yoe + doy - daysBeforeMarchYear yoe = doy := by
      omega
    have hmonth : monthOfDoy doy = mp :=
      monthOfDoy_eq doy mp (by omega) (by omega) (fun _ => hdoy_lt1)
    have hd_rec : doy - doyFromMarchMonth mp + 1 = d := by omega
    have hm_rec : (if mp < 10 then mp + 3 else mp - 9) = m := by
      rw [if_pos (by omega)]
      omega
    rw [hdn]
    dsimp only [civilFromDayNumber]
    rw [hdiv, hmod, hyoeOf, hdoysub, hmonth, hd_rec, hm_rec]
    rw [if_neg hm2]
    have hfin : era * 400 + (yoe : ℤ) + 0 = y := by omega
    rw [hfin]

theorem daysBefore_199 : daysBeforeMarchYear 199 = 72683 := by decide

theorem daysBefore_399 : daysBeforeMarchYear 399 = 145731 := by decide

theorem monthLen_table : ∀ mp < 11,
    doyFromMarchMonth (mp + 1) - doyFromMarchMonth mp
      ≤ (if (if mp < 10 then mp + 3 else mp - 9) = 4
          ∨ (if mp < 10 then mp + 3 else mp - 9) = 6
          ∨ (if mp < 10 then mp + 3 else mp - 9) = 9
          ∨ (if mp < 10 then mp + 3 else mp - 9) = 11 then 30 else 31) := by decide

/-- C10 core, backward direction: every day number decomposes into era,
March-year, day-of-year and March-month with the expected windows, and the
civil decomposition is exactly what `civilFromDayNumber` computes. -/
theorem civil_spec (dn : ℤ) :
    ∃ (era : ℤ) (yoe doy mp : ℕ),
      era = dn / 146097
      ∧ yoe ≤ 399 ∧ mp ≤ 11
      ∧ dn = era * 146097 + ((daysBeforeMarchYear yoe + doy : ℕ) : ℤ)
      ∧ doy < marchYearLen yoe
      ∧ mp = monthOfDoy doy
      ∧ doyFromMarchMonth mp ≤ doy
      ∧ (mp < 11 → doy < doyFromMarchMonth (mp + 1))
      ∧ civilFromDayNumber dn
          = (era * 400 + (yoe : ℤ)
              + (if (if mp < 10 then mp + 3 else mp - 9) ≤ 2 then 1 else 0),
             (if mp < 10 then mp + 3 else mp - 9),
             doy - doyFromMarchMonth mp + 1) := by
  set era := dn / 146097 with hera_def
  set doe := (dn % 146097).toNat with hdoe_def
  have hdoe_lt : doe < 146097 := by omega
  have hdn_eq : dn = era * 146097 + (doe : ℤ) := by omega
  set yoe := yoeOf doe with hyoe_def
  have hyoe399 : yoe ≤ 399 := yoeSearch_le doe 399
  have hf_le : daysBeforeMarchYear yoe ≤ doe := yoeSearch_start doe 399
  have hdoe_up : doe < daysBeforeMarchYear yoe + marchYearLen yoe := by
    rcases Nat.lt_or_ge yoe 399 with h399 | h399
    · by_contra hge
      push_neg at hge
      have hstep := daysBefore_succ yoe h399
      have hmore : yoe + 1 ≤ yoeOf doe :=
        yoeSearch_ge doe 399 (yoe + 1) (by omega) (by omega)
      omega
    · have h399' : yoe = 399 := by omega
      have hlast := daysBefore_last
      rw [h399']
      omega
  set doy := doe - daysBeforeMarchYear yoe with hdoy_def
  have hdoy_lt : doy < marchYearLen yoe := by omega
  set mp := monthOfDoy doy with hmp_def
  have hmp11 : mp ≤ 11 := monthSearch_le doy 11
  have hcum_le : doyFromMarchMonth mp ≤ doy := monthSearch_start doy 11
  have hdoy_up : mp < 11 → doy < doyFromMarchMonth (mp + 1) := by
    intro hlt
    by_contra hge
    push_neg at hge
    have hmore : mp + 1 ≤ monthOfDoy doy :=
      monthSearch_ge doy 11 (mp + 1) (by omega) hge
    omega
  have hciv : civilFromDayNumber dn
      = (era * 400 + (yoe : ℤ)
          + (if (if mp < 10 then mp + 3 else mp - 9) ≤ 2 then 1 else 0),
         (if mp < 10 then mp + 3 else mp - 9),
         doy - doyFromMarchMonth mp + 1) := by
    dsimp only [civilFromDayNumber]
  exact ⟨era, yoe, doy, mp, rfl, hyoe399, hmp11, by omega, hdoy_lt, hmp_def,
    hcum_le, hdoy_up, hciv⟩

/-- C10 core: the decomposition yields a valid civil date and recomposes to
the same day number. -/
theorem marchBase_civilFromDayNumber (dn : ℤ) :
    ValidDate (civilFromDayNumber dn).1 (civilFromDayNumber dn).2.1
      (civilFromDayNumber dn).2.2
    ∧ marchBase (civilFromDayNumber dn).1 (civilFromDayNumber dn).2.1
        + (((civilFromDayNumber dn).2.2 : ℤ) - 1) = dn := by
  obtain ⟨era, yoe, doy, mp, hera, hyoe399, hmp11, hdn_eq, hdoy_lt, hmp_def,
    hcum_le, hdoy_up, hciv⟩ := civil_spec dn
  rw [hciv]
  dsimp only
  set m := if mp < 10 then mp + 3 else mp - 9 with hm_def
  set d := doy - doyFromMarchMonth mp + 1 with hd_def
  set adj : ℤ := if m ≤ 2 then 1 else 0 with hadj_def
  have hm_range : 1 ≤ m ∧ m ≤ 12 := by
    rw [hm_def]
    split_ifs <;> omega
  have hmp_back : (if m ≤ 2 then m + 9 else m - 3) = mp := by
    rw [hm_def]
    split_ifs <;> omega
  have hd_le : d ≤ daysInMonth (era * 400 + (yoe : ℤ) + adj) m := by
    rcases Nat.lt_or_ge mp 11 with hlt11 | hge11
    · -- not February
      have hup := hdoy_up hlt11
      have hm_ne2 : m ≠ 2 := by
        rw [hm_def]
        split_ifs <;> omega
      rw [daysInMonth_nonFeb _ m hm_ne2]
      have htab := monthLen_table mp hlt11
      rw [← hm_def] at htab
      omega
    · -- February: mp = 11
      have hmp_eq : mp = 11 := by omega
      have hm_eq : m = 2 := by
        rw [hm_def, hmp_eq]
        decide
      have hadj1 : adj = 1 := by
        rw [hadj_def, if_pos (by omega)]
      rw [hm_eq, hadj1]
      unfold daysInMonth
      rw [if_pos rfl]
      have hleap := leap_era era yoe
      rw [show era * 400 + (yoe : ℤ) + 1 = 400 * era + (yoe : ℤ) + 1 from by ring]
      rw [hleap]
      unfold marchYearLen at hdoy_lt
      rw [hmp_eq] at hd_def hcum_le
      rw [cum11_val] at hd_def hcum_le
      omega
  refine ⟨⟨hm_range.1, hm_range.2, by omega, hd_le⟩, ?_⟩
  dsimp only [marchBase]
  have hys : (if m ≤ 2 then era * 400 + (yoe : ℤ) + adj - 1
      else era * 400 + (yoe : ℤ) + adj) = era * 400 + (yoe : ℤ) := by
    rw [hadj_def]
    split_ifs <;> omega
  rw [hmp_back]
  rw [hys]
  have hdiv400 : (era * 400 + (yoe : ℤ)) / 400 = era := by omega
  have hmod400 : ((era * 400 + (yoe : ℤ)) % 400).toNat = yoe := by omega
  rw [hdiv400, hmod400]
  push_cast
  omega

theorem civil_year_nonneg (dn : ℤ) (h : 0 ≤ dn) : 0 ≤ (civilFromDayNumber dn).1 := by
  obtain ⟨era, yoe, doy, mp, hera, hyoe399, hmp11, hdn_eq, hdoy_lt, hmp_def,
    hcum_le, hdoy_up, hciv⟩ := civil_spec dn
  rw [hciv]
  have hera_nonneg : 0 ≤ era := by omega
  dsimp only
  split_ifs <;> omega

theorem civil_year_le (dn : ℤ) (h : dn ≤ 3652364) :
    (civilFromDayNumber dn).1 ≤ 9999 := by
  obtain ⟨era, yoe, doy, mp, hera, hyoe399, hmp11, hdn_eq, hdoy_lt, hmp_def,
    hcum_le, hdoy_up, hciv⟩ := civil_spec dn
  rw [hciv]
  have hera_le : era ≤ 24 := by omega
  dsimp only
  rcases Nat.lt_or_ge yoe 399 with h398 | h399
  · split_ifs <;> omega
  · have hyoe_eq : yoe = 399 := by omega
    rcases Int.lt_or_le era 24 with h23 | h24
    · split_ifs <;> omega
    · have hera_eq : era = 24 := by omega
      -- in era 24, March-year 399, only months March–December fit below the cut
      have hf399 := daysBefore_399
      have hdoy_le : doy ≤ 305 := by
        rw [hyoe_eq] at hdn_eq
        rw [hf399] at hdn_eq
        omega
      have hmp_le9 : mp ≤ 9 := by
        by_contra hgt
        push_neg at hgt
        have hmono := doyMonth_mono 10 (by omega) mp (by omega) (by omega)
        rw [cum10_val] at hmono
        omega
      rw [if_pos (by omega : mp < 10)]
      rw [if_neg (by omega : ¬ mp + 3 ≤ 2)]
      omega

theorem civil_year_ge (dn : ℤ) (h : 365183 ≤ dn) :
    1000 ≤ (civilFromDayNumber dn).1 := by
  obtain ⟨era, yoe, doy, mp, hera, hyoe399, hmp11, hdn_eq, hdoy_lt, hmp_def,
    hcum_le, hdoy_up, hciv⟩ := civil_spec dn
  rw [hciv]
  have hera_ge : 2 ≤ era := by omega
  dsimp only
  rcases Int.lt_or_le era 3 with h2 | h3
  · have hera_eq : era = 2 := by omega
    have hdoe_ge : (72989 : ℤ) ≤ ((daysBeforeMarchYear yoe + doy : ℕ) : ℤ) := by omega
    rcases Nat.lt_or_ge yoe 199 with h199 | h200
    · -- impossible: the whole March-year lies before day 72989 of the era
      exfalso
      have hstep : daysBeforeMarchYear yoe + marchYearLen yoe
          ≤ daysBeforeMarchYear (yoe + 1) := by
        have := daysBefore_succ yoe (by omega)
        omega
      have hmono := daysBefore_mono (show yoe + 1 ≤ 199 by omega)
      have h199c := daysBefore_199
      omega
    · rcases Nat.lt_or_ge yoe 200 with h199' | h200'
      · -- March-year 199: the date must fall in January or February of year 1000
        have hyoe_eq : yoe = 199 := by omega
        have hf199 := daysBefore_199
        have hdoy_ge : 306 ≤ doy := by
          rw [hyoe_eq, hf199] at hdn_eq
          omega
        have hmp_ge : 10 ≤ mp := by
          rw [hmp_def]
          refine monthSearch_ge doy 11 10 (by omega) ?_
          rw [cum10_val]
          exact hdoy_ge
        rw [if_neg (by omega : ¬ mp < 10)]
        rw [if_pos (by omega : mp - 9 ≤ 2)]
        omega
      · split_ifs <;> omega
  · split_ifs <;> omega

/-! ### JS `Date` layer and the TransactionsPage datetime helpers

Strings are `List Char`.  `Date` instants are milliseconds since the Unix
epoch as `ℤ` (every value in play is an exact integer well inside the IEEE
double range).  `Date.UTC` and the `getUTC*` accessors follow the
ECMAScript specification: day numbers via the proleptic Gregorian calendar,
the two-digit-year 1900 shift, euclidean `modulo` for time components. -/

structure LocalDT where
  year : ℕ
  month : ℕ
  day : ℕ
  hour : ℕ
  minute : ℕ
  second : ℕ
deriving DecidableEq

def SHANGHAI_OFFSET_HOURS : ℤ := 8

/-- `TransactionsPage` `normalizeDateTimeLocal`. -/
def normalizeDateTimeLocal (value : List Char) : List Char :=
  if value.length = 16 then value ++ [':', '0', '0'] else value

/-- `TransactionsPage` `parseDateTimeLocal`: the anchored regex
`(dddd)-(dd)-(dd)T(dd):(dd)(:(dd))?` after normalization, fields by
`Number(...)`. -/
def parseDateTimeLocal (value : List Char) : Option LocalDT :=
  match normalizeDateTimeLocal value with
  | [y1, y2, y3, y4, c1, o1, o2, c2, d1, d2, c3, h1, h2, c4, i1, i2] =>
      if c1 = '-' ∧ c2 = '-' ∧ c3 = 'T' ∧ c4 = ':'
          ∧ isDigitChar y1 ∧ isDigitChar y2 ∧ isDigitChar y3 ∧ isDigitChar y4
          ∧ isDigitChar o1 ∧ isDigitChar o2 ∧ isDigitChar d1 ∧ isDigitChar d2
          ∧ isDigitChar h1 ∧ isDigitChar h2 ∧ isDigitChar i1 ∧ isDigitChar i2 then
        some ⟨parse4 y1 y2 y3 y4, parse2 o1 o2, parse2 d1 d2,
          parse2 h1 h2, parse2 i1 i2, 0⟩
      else none
  | [y1, y2, y3, y4, c1, o1, o2, c2, d1, d2, c3, h1, h2, c4, i1, i2, c5, s1, s2] =>
      if c1 = '-' ∧ c2 = '-' ∧ c3 = 'T' ∧ c4 = ':' ∧ c5 = ':'
          ∧ isDigitChar y1 ∧ isDigitChar y2 ∧ isDigitChar y3 ∧ isDigitChar y4
          ∧ isDigitChar o1 ∧ isDigitChar o2 ∧ isDigitChar d1 ∧ isDigitChar d2
          ∧ isDigitChar h1 ∧ isDigitChar h2 ∧ isDigitChar i1 ∧ isDigitChar i2
          ∧ isDigitChar s1 ∧ isDigitChar s2 then
        some ⟨parse4 y1 y2 y3 y4, parse2 o1 o2, parse2 d1 d2,
          parse2 h1 h2, parse2 i1 i2, parse2 s1 s2⟩
      else none
  | _ => none

/-- ECMAScript `Date.UTC(y, m, d, h, mi, s)` (`MakeFullYear` 1900 shift on
two-digit years, month-index overflow folded into the year). -/
def dateUTC (y m d h mi s : ℤ) : ℤ :=
  let yr : ℤ := if 0 ≤ y ∧ y ≤ 99 then 1900 + y else y
  let ym : ℤ := yr + m / 12
  let mn : ℕ := (m % 12).toNat
  (marchBase ym (mn + 1) - EPOCH_SHIFT + (d - 1)) * msPerDay
    + h * 3600000 + mi * 60000 + s * 1000

/-- ECMAScript `Date.prototype.toISOString`: years 0–9999 print as four
digits, years outside as the signed six-digit expanded form. -/
def toISOString (ms : ℤ) : List Char :=
  let c := civilFromDayNumber (ms / msPerDay + EPOCH_SHIFT)
  let yearStr : List Char :=
    if c.1 < 0 then '-' :: padTo 6 (-c.1).toNat
    else if c.1 ≤ 9999 then padTo 4 c.1.toNat
    else '+' :: padTo 6 c.1.toNat
  yearStr ++ '-' :: pad2 c.2.1 ++ '-' :: pad2 c.2.2
    ++ 'T' :: pad2 (ms / 3600000 % 24).toNat ++ ':' :: pad2 (ms / 60000 % 60).toNat
    ++ ':' :: pad2 (ms / 1000 % 60).toNat ++ '.' :: padTo 3 (ms % 1000).toNat ++ ['Z']

/-- `new Date(string).getTime()` on the canonical UTC date-time form
`YYYY-MM-DDTHH:mm:ss.sssZ` of the ECMAScript Date Time String Format (the
only shape this codebase feeds back into `new Date`); no 1900 shift here. -/
def parseIsoMs (s : List Char) : Option ℤ :=
  match s with
  | [y1, y2, y3, y4, c1, o1, o2, c2, d1, d2, c3, h1, h2, c4, i1, i2, c5, s1, s2,
      c6, f1, f2, f3, c7] =>
      if c1 = '-' ∧ c2 = '-' ∧ c3 = 'T' ∧ c4 = ':' ∧ c5 = ':' ∧ c6 = '.' ∧ c7 = 'Z'
          ∧ isDigitChar y1 ∧ isDigitChar y2 ∧ isDigitChar y3 ∧ isDigitChar y4
          ∧ isDigitChar o1 ∧ isDigitChar o2 ∧ isDigitChar d1 ∧ isDigitChar d2
          ∧ isDigitChar h1 ∧ isDigitChar h2 ∧ isDigitChar i1 ∧ isDigitChar i2
          ∧ isDigitChar s1 ∧ isDigitChar s2 ∧ isDigitChar f1 ∧ isDigitChar f2
          ∧ isDigitChar f3
          ∧ 1 ≤ parse2 o1 o2 ∧ parse2 o1 o2 ≤ 12
          ∧ 1 ≤ parse2 d1 d2 ∧ parse2 d1 d2 ≤ 31
          ∧ parse2 h1 h2 ≤ 24 ∧ parse2 i1 i2 ≤ 59 ∧ parse2 s1 s2 ≤ 59 then
        some ((marchBase (parse4 y1 y2 y3 y4 : ℤ) (parse2 o1 o2) - EPOCH_SHIFT
            + ((parse2 d1 d2 : ℤ) - 1)) * msPerDay
          + (parse2 h1 h2 : ℤ) * 3600000 + (parse2 i1 i2 : ℤ) * 60000
          + (parse2 s1 s2 : ℤ) * 1000 + (parse3 f1 f2 f3 : ℤ))
      else none
  | _ => none

/-- `TransactionsPage` `formatUtcToDateTimeLocalByOffset`: shift, then the
`getUTC*` fields, year via unpadded `String(...)`, the rest through `pad2`. -/
def formatUtcToDateTimeLocalByOffset (utcMs offsetHours : ℤ) : List Char :=
  let t := utcMs + offsetHours * 3600 * 1000
  let c := civilFromDayNumber (t / msPerDay + EPOCH_SHIFT)
  intToString c.1 ++ '-' :: pad2 c.2.1 ++ '-' :: pad2 c.2.2
    ++ 'T' :: pad2 (t / 3600000 % 24).toNat ++ ':' :: pad2 (t / 60000 % 60).toNat
    ++ ':' :: pad2 (t / 1000 % 60).toNat

/-- `TransactionsPage` `getNowShanghaiDateTime` (`Date.now()` passed in). -/
def getNowShanghaiDateTime (nowMs : ℤ) : List Char :=
  formatUtcToDateTimeLocalByOffset nowMs SHANGHAI_OFFSET_HOURS

/-- `TransactionsPage` `shanghaiLocalToIso` (`new Date().toISOString()`
fallback takes the current instant as a parameter). -/
def shanghaiLocalToIso (nowMs : ℤ) (value : List Char) : List Char :=
  match parseDateTimeLocal value with
  | none => toISOString nowMs
  | some p =>
      toISOString (dateUTC (p.year : ℤ) ((p.month : ℤ) - 1) (p.day : ℤ)
        ((p.hour : ℤ) - SHANGHAI_OFFSET_HOURS) (p.minute : ℤ) (p.second : ℤ))

/-- `TransactionsPage` `isoToShanghaiLocalDateTime`. -/
def isoToShanghaiLocalDateTime (nowMs : ℤ) (value : List Char) : List Char :=
  match parseIsoMs value with
  | none => getNowShanghaiDateTime nowMs
  | some ms => formatUtcToDateTimeLocalByOffset ms SHANGHAI_OFFSET_HOURS

/-- The canonical `YYYY-MM-DDTHH:mm:ss` datetime-local string. -/
def localDateTimeString (y mo d h mi se : ℕ) : List Char :=
  padTo 4 y ++ '-' :: pad2 mo ++ '-' :: pad2 d
    ++ 'T' :: pad2 h ++ ':' :: pad2 mi ++ ':' :: pad2 se

/-! ### Bridge lemmas between format and parse -/

theorem parseDateTimeLocal_format (y mo d h mi se : ℕ)
    (hy : y < 10000) (hmo : mo < 100) (hd : d < 100) (hh : h < 100)
    (hmi : mi < 100) (hse : se < 100) :
    parseDateTimeLocal (localDateTimeString y mo d h mi se)
      = some ⟨y, mo, d, h, mi, se⟩ := by
  unfold localDateTimeString pad2
  rw [padTo4_eq y hy, padTo2_eq mo hmo, padTo2_eq d hd, padTo2_eq h hh,
    padTo2_eq mi hmi, padTo2_eq se hse]
  simp only [List.cons_append, List.nil_append]
  unfold parseDateTimeLocal normalizeDateTimeLocal
  rw [if_neg (by simp)]
  dsimp only
  split_ifs with hcond
  · rw [parse4_digits y hy, parse2_digits mo hmo, parse2_digits d hd,
      parse2_digits h hh, parse2_digits mi hmi, parse2_digits se hse]
  · exact absurd ⟨rfl, rfl, rfl, rfl, rfl,
      isDigitChar_digitChar _ (by omega), isDigitChar_digitChar _ (by omega),
      isDigitChar_digitChar _ (by omega), isDigitChar_digitChar _ (by omega),
      isDigitChar_digitChar _ (by omega), isDigitChar_digitChar _ (by omega),
      isDigitChar_digitChar _ (by omega), isDigitChar_digitChar _ (by omega),
      isDigitChar_digitChar _ (by omega), isDigitChar_digitChar _ (by omega),
      isDigitChar_digitChar _ (by omega), isDigitChar_digitChar _ (by omega),
      isDigitChar_digitChar _ (by omega), isDigitChar_digitChar _ (by omega)⟩ hcond

theorem dateUTC_reduce (y : ℤ) (mo : ℕ) (d h mi s : ℤ)
    (hy : 100 ≤ y) (hmo1 : 1 ≤ mo) (hmo2 : mo ≤ 12) :
    dateUTC y ((mo : ℤ) - 1) d h mi s
      = (marchBase y mo - EPOCH_SHIFT + (d - 1)) * msPerDay
        + h * 3600000 + mi * 60000 + s * 1000 := by
  unfold dateUTC
  dsimp only
  rw [if_neg (by omega)]
  have h1 : ((mo : ℤ) - 1) / 12 = 0 := by omega
  have h2 : (((mo : ℤ) - 1) % 12).toNat = mo - 1 := by omega
  rw [h1, h2, add_zero]
  have h3 : mo - 1 + 1 = mo := by omega
  rw [h3]

theorem intToString_pad4 (n : ℤ) (h1 : 1000 ≤ n) (h2 : n ≤ 9999) :
    intToString n = padTo 4 n.toNat := by
  have hcast : n = ((n.toNat : ℕ) : ℤ) := by omega
  rw [hcast, intToString_of_big _ (by omega) (by omega)]
  rw [Int.toNat_natCast]

theorem daysInMonth_le_31 (y : ℤ) (m : ℕ) : daysInMonth y m ≤ 31 := by
  unfold daysInMonth
  split_ifs <;> omega

theorem formatUtc_eq_localString (utcMs offsetHours : ℤ) (y : ℤ) (mo d : ℕ)
    (hciv : civilFromDayNumber
        ((utcMs + offsetHours * 3600 * 1000) / msPerDay + EPOCH_SHIFT) = (y, mo, d))
    (hy1 : 1000 ≤ y) (hy2 : y ≤ 9999) :
    formatUtcToDateTimeLocalByOffset utcMs offsetHours
      = localDateTimeString y.toNat mo d
          ((utcMs + offsetHours * 3600 * 1000) / 3600000 % 24).toNat
          ((utcMs + offsetHours * 3600 * 1000) / 60000 % 60).toNat
          ((utcMs + offsetHours * 3600 * 1000) / 1000 % 60).toNat := by
  unfold formatUtcToDateTimeLocalByOffset
  dsimp only
  rw [hciv]
  rw [intToString_pad4 y hy1 hy2]
  rfl

theorem parseIsoMs_toISOString (ms y : ℤ) (mo d : ℕ)
    (hciv : civilFromDayNumber (ms / msPerDay + EPOCH_SHIFT) = (y, mo, d))
    (hy0 : 0 ≤ y) (hy9 : y ≤ 9999) :
    parseIsoMs (toISOString ms) = some ms := by
  have hvr := marchBase_civilFromDayNumber (ms / msPerDay + EPOCH_SHIFT)
  rw [hciv] at hvr
  dsimp only at hvr
  obtain ⟨⟨hmo1, hmo2, hd1, hd2⟩, hrec⟩ := hvr
  have hd31 : d ≤ 31 := le_trans hd2 (daysInMonth_le_31 _ _)
  unfold toISOString
  dsimp only
  rw [hciv]
  dsimp only
  rw [if_neg (by omega), if_pos hy9]
  unfold pad2
  rw [padTo4_eq y.toNat (by omega), padTo2_eq mo (by omega), padTo2_eq d (by omega),
    padTo2_eq (ms / 3600000 % 24).toNat (by omega),
    padTo2_eq (ms / 60000 % 60).toNat (by omega),
    padTo2_eq (ms / 1000 % 60).toNat (by omega),
    padTo3_eq (ms % 1000).toNat (by omega)]
  simp only [List.cons_append, List.nil_append]
  unfold parseIsoMs
  dsimp only
  split_ifs with hcond
  · rw [parse4_digits y.toNat (by omega), parse2_digits mo (by omega),
      parse2_digits d (by omega), parse2_digits (ms / 3600000 % 24).toNat (by omega),
      parse2_digits (ms / 60000 % 60).toNat (by omega),
      parse2_digits (ms / 1000 % 60).toNat (by omega),
      parse3_digits (ms % 1000).toNat (by omega)]
    have hyy : ((y.toNat : ℕ) : ℤ) = y := by omega
    rw [hyy]
    refine congrArg some ?_
    simp only [msPerDay, EPOCH_SHIFT] at hrec ⊢
    omega
  · refine absurd ⟨rfl, rfl, rfl, rfl, rfl, rfl, rfl,
      isDigitChar_digitChar _ (by omega), isDigitChar_digitChar _ (by omega),
      isDigitChar_digitChar _ (by omega), isDigitChar_digitChar _ (by omega),
      isDigitChar_digitChar _ (by omega), isDigitChar_digitChar _ (by omega),
      isDigitChar_digitChar _ (by omega), isDigitChar_digitChar _ (by omega),
      isDigitChar_digitChar _ (by omega), isDigitChar_digitChar _ (by omega),
      isDigitChar_digitChar _ (by omega), isDigitChar_digitChar _ (by omega),
      isDigitChar_digitChar _ (by omega), isDigitChar_digitChar _ (by omega),
      isDigitChar_digitChar _ (by omega), isDigitChar_digitChar _ (by omega),
      isDigitChar_digitChar _ (by omega),
      ?_, ?_, ?_, ?_, ?_, ?_, ?_⟩ hcond
    · rw [parse2_digits mo (by omega)]
      omega
    · rw [parse2_digits mo (by omega)]
      omega
    · rw [parse2_digits d (by omega)]
      omega
    · rw [parse2_digits d (by omega)]
      omega
    · rw [parse2_digits (ms / 3600000 % 24).toNat (by omega)]
      omega
    · rw [parse2_digits (ms / 60000 % 60).toNat (by omega)]
      omega
    · rw [parse2_digits (ms / 1000 % 60).toNat (by omega)]
      omega

theorem daysBefore_200 : daysBeforeMarchYear 200 = 73048 := by decide

theorem daysBefore_398 : daysBeforeMarchYear 398 = 145366 := by decide

theorem cum9_val : doyFromMarchMonth 9 = 275 := by decide

/-- Day numbers of calendar-valid dates in years 1000–9999 lie between
those of 1000-01-01 and 9999-12-31. -/
theorem marchBase_bounds (y : ℤ) (mo d : ℕ) (hv : ValidDate y mo d)
    (hy1 : 1000 ≤ y) (hy2 : y ≤ 9999) :
    365183 ≤ marchBase y mo + ((d : ℤ) - 1)
    ∧ marchBase y mo + ((d : ℤ) - 1) ≤ 3652364 := by
  obtain ⟨hmo1, hmo2, hd1, hd2⟩ := hv
  have hd31 : d ≤ 31 := le_trans hd2 (daysInMonth_le_31 _ _)
  dsimp only [marchBase]
  have hf399 := daysBefore_399
  have hf398 := daysBefore_398
  have hf200 := daysBefore_200
  have hf199 := daysBefore_199
  have hc9 := cum9_val
  have hc10 := cum10_val
  have hc11 := cum11_val
  by_cases hmo : mo ≤ 2
  · rw [if_pos hmo, if_pos hmo]
    set ys := y - 1 with hys_def
    set era := ys / 400 with hera_def
    set yoe := (ys % 400).toNat with hyoe_def
    have hys_split : ys = era * 400 + (yoe : ℤ) ∧ yoe ≤ 399 := by omega
    have hcum_lh : 306 ≤ doyFromMarchMonth (mo + 9)
        ∧ doyFromMarchMonth (mo + 9) ≤ 337 := by
      have : mo = 1 ∨ mo = 2 := by omega
      rcases this with h | h <;> rw [h] <;> decide
    rcases Int.lt_or_le era 3 with h2 | h3
    · -- era = 2, Jan/Feb: March-year at least 199
      have hyoe_ge : 199 ≤ yoe := by omega
      have hlb := daysBefore_mono (show 199 ≤ yoe from hyoe_ge)
      have hub := daysBefore_mono (show yoe ≤ 399 by omega)
      omega
    · rcases Int.lt_or_le era 24 with h23 | h24
      · have hub := daysBefore_mono (show yoe ≤ 399 by omega)
        omega
      · have hyoe_le : yoe ≤ 398 := by omega
        have hub := daysBefore_mono (show yoe ≤ 398 from hyoe_le)
        omega
  · rw [if_neg hmo, if_neg hmo]
    set era := y / 400 with hera_def
    set yoe := (y % 400).toNat with hyoe_def
    have hys_split : y = era * 400 + (yoe : ℤ) ∧ yoe ≤ 399 := by omega
    have hcum_ub : doyFromMarchMonth (mo - 3) ≤ 275 := by
      have := doyMonth_mono (mo - 3) (by omega) 9 (by omega) (by omega)
      omega
    rcases Int.lt_or_le era 3 with h2 | h3
    · have hyoe_ge : 200 ≤ yoe := by omega
      have hlb := daysBefore_mono (show 200 ≤ yoe from hyoe_ge)
      have hub := daysBefore_mono (show yoe ≤ 399 by omega)
      omega
    · rcases Int.lt_or_le era 24 with h23 | h24
      · have hub := daysBefore_mono (show yoe ≤ 399 by omega)
        omega
      · have hub := daysBefore_mono (show yoe ≤ 399 by omega)
        omega

/-- C10 part 1 core: a calendar-valid Shanghai-local datetime with year
1000–9999 survives the local → ISO → local roundtrip. -/
theorem shanghai_local_roundtrip (nowMs : ℤ) (y mo d h mi se : ℕ)
    (hv : ValidDate (y : ℤ) mo d) (hy1 : 1000 ≤ y) (hy2 : y ≤ 9999)
    (hh : h ≤ 23) (hmi : mi ≤ 59) (hse : se ≤ 59) :
    isoToShanghaiLocalDateTime nowMs
        (shanghaiLocalToIso nowMs (localDateTimeString y mo d h mi se))
      = localDateTimeString y mo d h mi se := by
  have hmo1 : 1 ≤ mo := hv.1
  have hmo2 : mo ≤ 12 := hv.2.1
  have hd1 : 1 ≤ d := hv.2.2.1
  have hd31 : d ≤ 31 := le_trans hv.2.2.2 (daysInMonth_le_31 _ _)
  have hmsd : msPerDay = 86400000 := rfl
  have hep : EPOCH_SHIFT = 719468 := rfl
  have hsh : SHANGHAI_OFFSET_HOURS = 8 := rfl
  have hparse := parseDateTimeLocal_format y mo d h mi se (by omega) (by omega)
    (by omega) (by omega) (by omega) (by omega)
  have hstep1 : shanghaiLocalToIso nowMs (localDateTimeString y mo d h mi se)
      = toISOString (dateUTC (y : ℤ) ((mo : ℤ) - 1) (d : ℤ)
          ((h : ℤ) - SHANGHAI_OFFSET_HOURS) (mi : ℤ) (se : ℤ)) := by
    unfold shanghaiLocalToIso
    rw [hparse]
  set utc := dateUTC (y : ℤ) ((mo : ℤ) - 1) (d : ℤ)
    ((h : ℤ) - SHANGHAI_OFFSET_HOURS) (mi : ℤ) (se : ℤ) with hutc_def
  have hutc : utc = (marchBase (y : ℤ) mo - EPOCH_SHIFT + ((d : ℤ) - 1)) * msPerDay
      + ((h : ℤ) - SHANGHAI_OFFSET_HOURS) * 3600000 + (mi : ℤ) * 60000
      + (se : ℤ) * 1000 := by
    rw [hutc_def, dateUTC_reduce _ _ _ _ _ _ (by omega) (by omega) (by omega)]
  rw [hmsd, hep, hsh] at hutc
  obtain ⟨hB_lb, hB_ub⟩ := marchBase_bounds (y : ℤ) mo d hv (by omega) (by omega)
  set B := marchBase (y : ℤ) mo with hB_def
  have hdnU0 : 0 ≤ utc / msPerDay + EPOCH_SHIFT := by
    rw [hmsd, hep]
    omega
  have hdnU9 : utc / msPerDay + EPOCH_SHIFT ≤ 3652364 := by
    rw [hmsd, hep]
    omega
  have hy'0 := civil_year_nonneg _ hdnU0
  have hy'9 := civil_year_le _ hdnU9
  have hpi := parseIsoMs_toISOString utc
    (civilFromDayNumber (utc / msPerDay + EPOCH_SHIFT)).1
    (civilFromDayNumber (utc / msPerDay + EPOCH_SHIFT)).2.1
    (civilFromDayNumber (utc / msPerDay + EPOCH_SHIFT)).2.2 rfl hy'0 hy'9
  rw [hstep1]
  unfold isoToShanghaiLocalDateTime
  rw [hpi]
  dsimp only
  have ht_civil : civilFromDayNumber
      ((utc + SHANGHAI_OFFSET_HOURS * 3600 * 1000) / msPerDay + EPOCH_SHIFT)
      = ((y : ℤ), mo, d) := by
    have harg : (utc + SHANGHAI_OFFSET_HOURS * 3600 * 1000) / msPerDay + EPOCH_SHIFT
        = B + ((d : ℤ) - 1) := by
      rw [hmsd, hep, hsh]
      omega
    rw [harg, hB_def]
    exact civilFromDayNumber_marchBase (y : ℤ) mo d hv
  rw [formatUtc_eq_localString utc SHANGHAI_OFFSET_HOURS (y : ℤ) mo d ht_civil
    (by omega) (by omega)]
  have hyy : ((y : ℕ) : ℤ).toNat = y := Int.toNat_natCast y
  have hht : ((utc + SHANGHAI_OFFSET_HOURS * 3600 * 1000) / 3600000 % 24).toNat = h := by
    rw [hsh]
    omega
  have hmt : ((utc + SHANGHAI_OFFSET_HOURS * 3600 * 1000) / 60000 % 60).toNat = mi := by
    rw [hsh]
    omega
  have hst : ((utc + SHANGHAI_OFFSET_HOURS * 3600 * 1000) / 1000 % 60).toNat = se := by
    rw [hsh]
    omega
  rw [hyy, hht, hmt, hst]

/-- C10 part 2 core: a whole-second instant whose Shanghai-local year is
1000–9999 survives the ISO → local → ISO roundtrip. -/
theorem shanghai_instant_roundtrip (nowMs ms : ℤ)
    (hms : ms % 1000 = 0) (hlo : -30610252800000 ≤ ms)
    (hhi : ms ≤ 253402271999000) :
    shanghaiLocalToIso nowMs (isoToShanghaiLocalDateTime nowMs (toISOString ms))
      = toISOString ms := by
  have hmsd : msPerDay = 86400000 := rfl
  have hep : EPOCH_SHIFT = 719468 := rfl
  have hsh : SHANGHAI_OFFSET_HOURS = 8 := rfl
  have hdn0 : 0 ≤ ms / msPerDay + EPOCH_SHIFT := by
    rw [hmsd, hep]
    omega
  have hdn9 : ms / msPerDay + EPOCH_SHIFT ≤ 3652364 := by
    rw [hmsd, hep]
    omega
  have hpi := parseIsoMs_toISOString ms
    (civilFromDayNumber (ms / msPerDay + EPOCH_SHIFT)).1
    (civilFromDayNumber (ms / msPerDay + EPOCH_SHIFT)).2.1
    (civilFromDayNumber (ms / msPerDay + EPOCH_SHIFT)).2.2 rfl
    (civil_year_nonneg _ hdn0) (civil_year_le _ hdn9)
  unfold isoToShanghaiLocalDateTime
  rw [hpi]
  dsimp only
  have hdnT1 : 365183
      ≤ (ms + SHANGHAI_OFFSET_HOURS * 3600 * 1000) / msPerDay + EPOCH_SHIFT := by
    rw [hmsd, hep, hsh]
    omega
  have hdnT9 : (ms + SHANGHAI_OFFSET_HOURS * 3600 * 1000) / msPerDay + EPOCH_SHIFT
      ≤ 3652364 := by
    rw [hmsd, hep, hsh]
    omega
  have hyT1 := civil_year_ge _ hdnT1
  have hyT9 := civil_year_le _ hdnT9
  obtain ⟨hvT, hrecT⟩ := marchBase_civilFromDayNumber
    ((ms + SHANGHAI_OFFSET_HOURS * 3600 * 1000) / msPerDay + EPOCH_SHIFT)
  set cT := civilFromDayNumber
    ((ms + SHANGHAI_OFFSET_HOURS * 3600 * 1000) / msPerDay + EPOCH_SHIFT) with hcT_def
  have hmoT1 : 1 ≤ cT.2.1 := hvT.1
  have hmoT2 : cT.2.1 ≤ 12 := hvT.2.1
  have hdT1 : 1 ≤ cT.2.2 := hvT.2.2.1
  have hdT31 : cT.2.2 ≤ 31 := le_trans hvT.2.2.2 (daysInMonth_le_31 _ _)
  rw [formatUtc_eq_localString ms SHANGHAI_OFFSET_HOURS cT.1 cT.2.1 cT.2.2
    (by rw [hcT_def]) hyT1 hyT9]
  have hHle : ((ms + SHANGHAI_OFFSET_HOURS * 3600 * 1000) / 3600000 % 24).toNat ≤ 23 := by
    rw [hsh]
    omega
  have hMle : ((ms + SHANGHAI_OFFSET_HOURS * 3600 * 1000) / 60000 % 60).toNat ≤ 59 := by
    rw [hsh]
    omega
  have hSle : ((ms + SHANGHAI_OFFSET_HOURS * 3600 * 1000) / 1000 % 60).toNat ≤ 59 := by
    rw [hsh]
    omega
  have hparse2 := parseDateTimeLocal_format cT.1.toNat cT.2.1 cT.2.2
    ((ms + SHANGHAI_OFFSET_HOURS * 3600 * 1000) / 3600000 % 24).toNat
    ((ms + SHANGHAI_OFFSET_HOURS * 3600 * 1000) / 60000 % 60).toNat
    ((ms + SHANGHAI_OFFSET_HOURS * 3600 * 1000) / 1000 % 60).toNat
    (by omega) (by omega) (by omega) (by omega) (by omega) (by omega)
  unfold shanghaiLocalToIso
  rw [hparse2]
  dsimp only
  rw [dateUTC_reduce _ _ _ _ _ _ (by omega) (by omega) (by omega)]
  have hyT0 : ((cT.1.toNat : ℕ) : ℤ) = cT.1 := by omega
  rw [hyT0]
  congr 1
  rw [hmsd, hep, hsh] at hrecT ⊢
  omega

set_option maxRecDepth 16000 in
/-- C10 counterexample: "0999-01-01T10:00:00" is a well-formed,
calendar-valid local datetime accepted by `parseDateTimeLocal`, yet the
local → ISO → local composition rebuilds it with the year unpadded as
"999-01-01T10:00:00". -/
theorem c10_roundtrip_counterexample :
    parseDateTimeLocal ("0999-01-01T10:00:00".toList)
        = some ⟨999, 1, 1, 10, 0, 0⟩
    ∧ isoToShanghaiLocalDateTime 0 (shanghaiLocalToIso 0
          ("0999-01-01T10:00:00".toList))
        ≠ "0999-01-01T10:00:00".toList := by
  constructor
  · decide
  · decide

/-- C10 (amended): the Shanghai-local conversions (fixed UTC+8, no DST)
are mutually inverse on their actual domain. The canonical local string of
every calendar-valid datetime with year 1000–9999 is restored by
`isoToShanghaiLocalDateTime ∘ shanghaiLocalToIso`, and every whole-second
instant whose Shanghai-local date has year 1000–9999 is preserved by the
opposite composition. Outside this domain the claim fails: years below
1000 print unpadded (and `Date.UTC` shifts years 0–99 to 1900–1999), and
the local format drops sub-second precision. -/
theorem c10_shanghai_datetime_roundtrip (nowMs : ℤ) (y mo d h mi se : ℕ) (ms : ℤ)
    (hv : ValidDate (y : ℤ) mo d) (hy1 : 1000 ≤ y) (hy2 : y ≤ 9999)
    (hh : h ≤ 23) (hmi : mi ≤ 59) (hse : se ≤ 59)
    (hms : ms % 1000 = 0) (hlo : -30610252800000 ≤ ms)
    (hhi : ms ≤ 253402271999000) :
    isoToShanghaiLocalDateTime nowMs
        (shanghaiLocalToIso nowMs (localDateTimeString y mo d h mi se))
      = localDateTimeString y mo d h mi se
    ∧ shanghaiLocalToIso nowMs (isoToShanghaiLocalDateTime nowMs (toISOString ms))
      = toISOString ms :=
  ⟨shanghai_local_roundtrip nowMs y mo d h mi se hv hy1 hy2 hh hmi hse,
   shanghai_instant_roundtrip nowMs ms hms hlo hhi⟩

/-- Witness: the amended roundtrip at the local datetime
2026-02-08T10:30:05 and at the epoch instant. -/
theorem c10_shanghai_datetime_roundtrip_witness :
    (ValidDate ((2026 : ℕ) : ℤ) 2 8 ∧ (1000 : ℕ) ≤ 2026 ∧ (2026 : ℕ) ≤ 9999
      ∧ (10 : ℕ) ≤ 23 ∧ (30 : ℕ) ≤ 59 ∧ (5 : ℕ) ≤ 59
      ∧ (0 : ℤ) % 1000 = 0 ∧ (-30610252800000 : ℤ) ≤ 0
      ∧ (0 : ℤ) ≤ 253402271999000)
    ∧ (isoToShanghaiLocalDateTime 0 (shanghaiLocalToIso 0
          (localDateTimeString 2026 2 8 10 30 5))
        = localDateTimeString 2026 2 8 10 30 5
      ∧ shanghaiLocalToIso 0 (isoToShanghaiLocalDateTime 0 (toISOString 0))
        = toISOString 0) :=
  ⟨⟨⟨by decide, by decide, by decide, by decide⟩, by decide, by decide, by decide,
      by decide, by decide, by decide, by decide, by decide⟩,
   c10_shanghai_datetime_roundtrip 0 2026 2 8 10 30 5 0
     ⟨by decide, by decide, by decide, by decide⟩ (by decide)
     (by decide) (by decide) (by decide) (by decide) (by decide) (by decide)
     (by decide)⟩
